import Mathlib

/-!
Shallow embedding of the BadgerDB buffer manager (`src/BufMgr/src/buffer.cpp`).

Files are identified by natural numbers (the C++ `File*` pointer; `none`
stands for the null pointer in a descriptor), pages by their page number.
A frame's in-memory buffer is modelled by the page number embedded in the
page object it currently holds (`bufPool`).  The external file collaborator
performs no interpretation of page contents at this layer, so its calls are
modelled by event logs: `readLog` records `file->readPage(p)` calls,
`writeLog` records `file->writePage(page)` calls as the pair
(owning file, page number embedded in the written buffer), and `deleteLog`
records `file->deletePage(p)` calls.  C++ exceptions are modelled with
`Except`; the error value carries the manager state at the moment of the
throw, since the C++ object retains all mutations made before the throw.
-/

namespace BufMgrModel

/-- Error kinds thrown by the buffer manager: `BufferExceededException`,
`PageNotPinnedException(file, page, frame)`, `PagePinnedException(file, page, frame)`. -/
inductive BufErr where
  | bufferExceeded : BufErr
  | pageNotPinned : Nat → Nat → Nat → BufErr
  | pagePinned : Nat → Nat → Nat → BufErr
deriving DecidableEq

/-- Frame descriptor (`BufDesc`): per-frame metadata.  The `frameNo` field of
the C++ struct is omitted since it always equals the frame's index. -/
structure BufDesc where
  fileId : Option Nat
  pageNo : Nat
  pinCnt : Nat
  dirty : Bool
  valid : Bool
  refbit : Bool
deriving DecidableEq

/-- Modelled from the spec: `BufDesc::Clear` (declared in `buffer.h`, which is
not part of the sources) resets the descriptor to the empty state — no file,
pin count zero, not dirty, not valid, reference bit clear. -/
def BufDesc.Clear : BufDesc :=
  { fileId := none, pageNo := 0, pinCnt := 0, dirty := false, valid := false, refbit := false }

/-- Modelled from the spec: `BufDesc::Set(file, pageNo)` (declared in
`buffer.h`) sets the descriptor's identity, pin count 1, dirty false,
valid true, reference bit set. -/
def BufDesc.Set (f p : Nat) : BufDesc :=
  { fileId := some f, pageNo := p, pinCnt := 1, dirty := false, valid := true, refbit := true }

/-- Modelled from the spec: `BufHashTbl::lookup(file, pageNo)` — returns the
frame index mapped to the key, failing distinctly (`none`, the
`HashNotFoundException` path) when absent. -/
def hLookup : List ((Nat × Nat) × Nat) → Nat × Nat → Option Nat
  | [], _ => none
  | (k, v) :: t, q => if k = q then some v else hLookup t q

/-- Modelled from the spec: `BufHashTbl::insert(file, pageNo, frameNo)`.
The manager only inserts keys that are currently absent. -/
def hInsert (t : List ((Nat × Nat) × Nat)) (k : Nat × Nat) (v : Nat) :
    List ((Nat × Nat) × Nat) :=
  (k, v) :: t

/-- Modelled from the spec: `BufHashTbl::remove(file, pageNo)` — removes the
entry for the key (a missing key is treated as silently ignorable). -/
def hRemove (t : List ((Nat × Nat) × Nat)) (k : Nat × Nat) :
    List ((Nat × Nat) × Nat) :=
  t.filter (fun e => e.1 != k)

/-- The buffer manager state: descriptor table, frame pool, page identity
index, clock hand, and the event logs of the file collaborator. -/
structure BufMgr where
  numBufs : Nat
  bufDescTable : List BufDesc
  bufPool : List Nat
  hashTable : List ((Nat × Nat) × Nat)
  clockHand : Nat
  readLog : List (Nat × Nat)
  writeLog : List (Nat × Nat)
  deleteLog : List (Nat × Nat)
deriving DecidableEq

/-- `BufMgr::BufMgr(bufs)`: every descriptor starts cleared (the `BufDesc`
default constructor clears, and the constructor body sets `valid = false`),
and `clockHand = bufs - 1`. -/
def BufMgr.init (bufs : Nat) : BufMgr :=
  { numBufs := bufs
    bufDescTable := List.replicate bufs BufDesc.Clear
    bufPool := List.replicate bufs 0
    hashTable := []
    clockHand := bufs - 1
    readLog := []
    writeLog := []
    deleteLog := [] }

/-- `bufDescTable[i]`. -/
def BufMgr.desc (s : BufMgr) (i : Nat) : BufDesc :=
  s.bufDescTable.getD i BufDesc.Clear

/-- The page number embedded in `bufPool[i]`. -/
def BufMgr.poolAt (s : BufMgr) (i : Nat) : Nat :=
  s.bufPool.getD i 0

/-- `bufDescTable[i] = d`. -/
def BufMgr.setDesc (s : BufMgr) (i : Nat) (d : BufDesc) : BufMgr :=
  { s with bufDescTable := s.bufDescTable.set i d }

/-- `BufMgr::advanceClock()`. -/
def BufMgr.advanceClock (s : BufMgr) : BufMgr :=
  { s with clockHand := (s.clockHand + 1) % s.numBufs }

/-- `bufDescTable[i].file->writePage(bufPool[i])`: logged as
(owning file, page number embedded in the buffer). -/
def BufMgr.writePageAt (s : BufMgr) (i : Nat) : BufMgr :=
  { s with writeLog := ((s.desc i).fileId.getD 0, s.poolAt i) :: s.writeLog }

/-- `bufPool[i] = file->readPage(p)`: logs the read and stores the page
(whose embedded number is `p`) into the pool slot. -/
def BufMgr.fileReadInto (s : BufMgr) (f p i : Nat) : BufMgr :=
  { s with readLog := (f, p) :: s.readLog, bufPool := s.bufPool.set i p }

/-- The loop body of `BufMgr::allocBuf`: the C++ `for (i = 0; i <= numBufs; i++)`
runs `numBufs + 1` iterations (the fuel), advancing the clock before every
inspection, and throws `BufferExceededException` when the bound is exhausted. -/
def allocBufLoop : Nat → BufMgr → Except (BufErr × BufMgr) (BufMgr × Nat)
  | 0, s => .error (.bufferExceeded, s)
  | fuel + 1, s =>
    let s := s.advanceClock
    let d := s.desc s.clockHand
    if d.valid = false then
      .ok (s, s.clockHand)
    else if d.refbit = true then
      allocBufLoop fuel (s.setDesc s.clockHand { d with refbit := false })
    else if d.pinCnt > 0 then
      allocBufLoop fuel s
    else
      let s1 := if d.dirty = true then s.writePageAt s.clockHand else s
      let s2 := { s1 with hashTable := hRemove s1.hashTable (d.fileId.getD 0, d.pageNo) }
      let s3 := s2.setDesc s2.clockHand BufDesc.Clear
      .ok (s3, s3.clockHand)

/-- `BufMgr::allocBuf(frame)`. -/
def allocBuf (s : BufMgr) : Except (BufErr × BufMgr) (BufMgr × Nat) :=
  allocBufLoop (s.numBufs + 1) s

/-- `BufMgr::readPage(file, pageNo, page)` — the public fetch operation.
Returns the resulting state and the frame index whose buffer is returned. -/
def readPage (s : BufMgr) (f p : Nat) : Except (BufErr × BufMgr) (BufMgr × Nat) :=
  match hLookup s.hashTable (f, p) with
  | some fid =>
    let s1 := s.setDesc fid { s.desc fid with pinCnt := (s.desc fid).pinCnt + 1 }
    let s2 := s1.setDesc fid { s1.desc fid with refbit := true }
    .ok (s2, fid)
  | none =>
    match allocBuf s with
    | .error e => .error e
    | .ok (t, fid) =>
      let t1 := t.fileReadInto f p fid
      let t2 := { t1 with hashTable := hInsert t1.hashTable (f, p) fid }
      let t3 := t2.setDesc fid (BufDesc.Set f p)
      let t4 := t3.setDesc fid { t3.desc fid with refbit := true }
      .ok (t4, fid)

/-- `BufMgr::unPinPage(file, pageNo, dirty)`.  Note that the source sets the
descriptor's dirty flag unconditionally (`bufDescTable[f].dirty = true;`),
ignoring the `dirty` argument. -/
def unPinPage (s : BufMgr) (f p : Nat) (dirty : Bool) : Except (BufErr × BufMgr) BufMgr :=
  match hLookup s.hashTable (f, p) with
  | some fid =>
    if (s.desc fid).pinCnt = 0 then
      .error (.pageNotPinned f p fid, s)
    else
      .ok (s.setDesc fid
        { s.desc fid with dirty := true, pinCnt := (s.desc fid).pinCnt - 1 })
  | none => .ok s

/-- The body of the `flushFile` loop for one matching, unpinned frame `i`:
write back if dirty (and clear the dirty flag), remove the index entry,
clear the descriptor. -/
def flushFrame (s : BufMgr) (f i : Nat) : BufMgr :=
  let d := s.desc i
  let s1 := if d.dirty = true then (s.writePageAt i).setDesc i { d with dirty := false } else s
  let s2 := { s1 with hashTable := hRemove s1.hashTable (f, d.pageNo) }
  s2.setDesc i BufDesc.Clear

/-- The `for (i = 0; i < numBufs; i++)` loop of `BufMgr::flushFile`,
scanning from frame index `i` with `fuel` iterations left. -/
def flushFileAux (f : Nat) : Nat → Nat → BufMgr → Except (BufErr × BufMgr) BufMgr
  | 0, _, s => .ok s
  | fuel + 1, i, s =>
    let d := s.desc i
    if d.fileId = some f then
      if d.pinCnt > 0 then
        .error (.pagePinned f d.pageNo i, s)
      else
        flushFileAux f fuel (i + 1) (flushFrame s f i)
    else
      flushFileAux f fuel (i + 1) s

/-- `BufMgr::flushFile(file)`. -/
def flushFile (s : BufMgr) (f : Nat) : Except (BufErr × BufMgr) BufMgr :=
  flushFileAux f s.numBufs 0 s

/-- `BufMgr::allocPage(file, pageNo, page)`.  `newPageId` is the page number
assigned by the file collaborator — modelled from the spec:
`file->allocatePage()` grows the file and returns a fresh page number.
Returns the resulting state, the new page number and the frame index. -/
def allocPage (s : BufMgr) (f : Nat) (newPageId : Nat) :
    Except (BufErr × BufMgr) (BufMgr × Nat × Nat) :=
  match allocBuf s with
  | .error e => .error e
  | .ok (t, fid) =>
    let t1 := { t with hashTable := hInsert t.hashTable (f, newPageId) fid }
    let t2 := t1.fileReadInto f newPageId fid
    let t3 := t2.setDesc fid (BufDesc.Set f newPageId)
    .ok (t3, newPageId, fid)

/-- `BufMgr::disposePage(file, PageNo)`: if resident, clear the descriptor and
remove the index entry (in that order, no writeback); then always
`file->deletePage(PageNo)`. -/
def disposePage (s : BufMgr) (f p : Nat) : BufMgr :=
  let s1 :=
    match hLookup s.hashTable (f, p) with
    | some fid =>
      let t := s.setDesc fid BufDesc.Clear
      { t with hashTable := hRemove t.hashTable (f, p) }
    | none => s
  { s1 with deleteLog := (f, p) :: s1.deleteLog }

/-- Runs `readPage` and keeps the resulting state (the state at the throw on
failure) — the state a caller observes in the C++ object after the call. -/
def fetchS (s : BufMgr) (f p : Nat) : BufMgr :=
  match readPage s f p with
  | .ok (t, _) => t
  | .error (_, t) => t

/-- The frame index whose buffer a successful `readPage` returns. -/
def fetchFrame (s : BufMgr) (f p : Nat) : Option Nat :=
  match readPage s f p with
  | .ok (_, fid) => some fid
  | .error _ => none

/-- Runs `unPinPage` and keeps the resulting state. -/
def unpinS (s : BufMgr) (f p : Nat) (d : Bool) : BufMgr :=
  match unPinPage s f p d with
  | .ok t => t
  | .error (_, t) => t

/-- Whether a buffer-allocation result is the capacity-exhausted throw. -/
def isBufferExceeded : Except (BufErr × BufMgr) (BufMgr × Nat) → Bool
  | .error (.bufferExceeded, _) => true
  | _ => false

/-- The state invariant of the buffer manager (spec §3): well-formed sizes and
clock hand; a cleared frame carries no identity debt; every index entry points
to a valid frame whose descriptor agrees with the key; every valid frame is
indexed at its own identity; and the pool slot of a valid frame holds the page
the descriptor names. -/
def Invariant (s : BufMgr) : Prop :=
  0 < s.numBufs ∧
  s.bufDescTable.length = s.numBufs ∧
  s.bufPool.length = s.numBufs ∧
  s.clockHand < s.numBufs ∧
  (∀ i < s.numBufs, (s.desc i).valid = false →
    (s.desc i).pinCnt = 0 ∧ (s.desc i).dirty = false ∧
    (s.desc i).fileId = none ∧ (s.desc i).refbit = false) ∧
  (∀ e ∈ s.hashTable, e.2 < s.numBufs ∧ (s.desc e.2).valid = true ∧
    (s.desc e.2).fileId = some e.1.1 ∧ (s.desc e.2).pageNo = e.1.2) ∧
  (∀ i < s.numBufs, (s.desc i).valid = true →
    hLookup s.hashTable (((s.desc i).fileId).getD 0, (s.desc i).pageNo) = some i) ∧
  (∀ i < s.numBufs, (s.desc i).valid = true → s.poolAt i = (s.desc i).pageNo)

end BufMgrModel

namespace BufMgrModel

/-! ### Basic list and index lemmas -/

theorem getD_set_self {α : Type} : ∀ (l : List α) (i : Nat) (a d : α),
    i < l.length → (l.set i a).getD i d = a
  | [], i, _, _, h => absurd h (by simp)
  | _ :: _, 0, _, _, _ => rfl
  | _ :: xs, i + 1, a, d, h => by
    simpa using getD_set_self xs i a d (by simpa using h)

theorem getD_set_ne {α : Type} : ∀ (l : List α) (i j : Nat) (a d : α),
    i ≠ j → (l.set i a).getD j d = l.getD j d
  | [], _, _, _, _, _ => rfl
  | _ :: _, 0, 0, _, _, h => absurd rfl h
  | _ :: _, 0, _ + 1, _, _, _ => by simp
  | _ :: _, _ + 1, 0, _, _, _ => by simp
  | _ :: xs, i + 1, j + 1, a, d, h => by
    simpa using getD_set_ne xs i j a d (fun hc => h (by omega))

theorem hLookup_mem : ∀ {t : List ((Nat × Nat) × Nat)} {k : Nat × Nat} {v : Nat},
    hLookup t k = some v → (k, v) ∈ t := by
  intro t
  induction t with
  | nil => intro k v h; simp [hLookup] at h
  | cons e rest ih =>
    intro k v h
    obtain ⟨ke, ve⟩ := e
    by_cases hk : ke = k
    · subst hk
      simp [hLookup] at h
      simp [h]
    · simp [hLookup, hk] at h
      exact List.mem_cons_of_mem _ (ih h)

theorem mem_of_hLookup_ne_none {t : List ((Nat × Nat) × Nat)} {k : Nat × Nat} {v : Nat}
    (hm : (k, v) ∈ t) : hLookup t k ≠ none := by
  induction t with
  | nil => simp at hm
  | cons e rest ih =>
    obtain ⟨ke, ve⟩ := e
    by_cases hk : ke = k
    · subst hk; simp [hLookup]
    · simp [hLookup, hk]
      rcases List.mem_cons.mp hm with h | h
      · exact absurd (congrArg Prod.fst h).symm hk
      · exact ih h

theorem hLookup_hInsert_self (t : List ((Nat × Nat) × Nat)) (k : Nat × Nat) (v : Nat) :
    hLookup (hInsert t k v) k = some v := by
  simp [hInsert, hLookup]

theorem hLookup_hInsert_ne (t : List ((Nat × Nat) × Nat)) {k q : Nat × Nat} (v : Nat)
    (h : q ≠ k) : hLookup (hInsert t k v) q = hLookup t q := by
  have hk : k ≠ q := fun hc => h hc.symm
  simp [hInsert, hLookup, hk]

theorem mem_hRemove {t : List ((Nat × Nat) × Nat)} {k : Nat × Nat}
    {e : (Nat × Nat) × Nat} (h : e ∈ hRemove t k) : e ∈ t ∧ e.1 ≠ k := by
  have := List.mem_filter.mp h
  refine ⟨this.1, ?_⟩
  simpa using this.2

theorem hLookup_hRemove_self (t : List ((Nat × Nat) × Nat)) (k : Nat × Nat) :
    hLookup (hRemove t k) k = none := by
  induction t with
  | nil => rfl
  | cons e rest ih =>
    obtain ⟨ke, ve⟩ := e
    by_cases hk : ke = k
    · subst hk; simpa [hRemove, hLookup] using ih
    · simpa [hRemove, hLookup, hk] using ih

theorem hLookup_hRemove_ne (t : List ((Nat × Nat) × Nat)) {k q : Nat × Nat}
    (h : q ≠ k) : hLookup (hRemove t k) q = hLookup t q := by
  induction t with
  | nil => rfl
  | cons e rest ih =>
    obtain ⟨ke, ve⟩ := e
    by_cases hk : ke = k
    · have hq : ke ≠ q := by rw [hk]; exact fun hc => h hc.symm
      simp only [hRemove, List.filter_cons] at ih ⊢
      simp [hk, hq, hLookup, ih, Ne.symm h]
    · by_cases hq : ke = q
      · simp only [hRemove, List.filter_cons] at ih ⊢
        simp [hk, hq, hLookup, h, Ne.symm h]
      · simp only [hRemove, List.filter_cons] at ih ⊢
        simp [hk, hq, hLookup, ih]

end BufMgrModel

namespace BufMgrModel

instance decidableInvariant (s : BufMgr) : Decidable (Invariant s) := by
  unfold Invariant
  exact inferInstance

/-! ### State-update lemmas -/

theorem desc_setDesc_self (s : BufMgr) {i : Nat} (d : BufDesc)
    (h : i < s.bufDescTable.length) : (s.setDesc i d).desc i = d :=
  getD_set_self _ _ _ _ h

theorem desc_setDesc_ne (s : BufMgr) {i j : Nat} (d : BufDesc)
    (h : i ≠ j) : (s.setDesc i d).desc j = s.desc j :=
  getD_set_ne _ _ _ _ _ h

@[simp] theorem setDesc_numBufs (s : BufMgr) (i : Nat) (d : BufDesc) :
    (s.setDesc i d).numBufs = s.numBufs := rfl

@[simp] theorem setDesc_hashTable (s : BufMgr) (i : Nat) (d : BufDesc) :
    (s.setDesc i d).hashTable = s.hashTable := rfl

@[simp] theorem setDesc_clockHand (s : BufMgr) (i : Nat) (d : BufDesc) :
    (s.setDesc i d).clockHand = s.clockHand := rfl

@[simp] theorem setDesc_bufPool (s : BufMgr) (i : Nat) (d : BufDesc) :
    (s.setDesc i d).bufPool = s.bufPool := rfl

@[simp] theorem setDesc_readLog (s : BufMgr) (i : Nat) (d : BufDesc) :
    (s.setDesc i d).readLog = s.readLog := rfl

@[simp] theorem setDesc_writeLog (s : BufMgr) (i : Nat) (d : BufDesc) :
    (s.setDesc i d).writeLog = s.writeLog := rfl

@[simp] theorem setDesc_deleteLog (s : BufMgr) (i : Nat) (d : BufDesc) :
    (s.setDesc i d).deleteLog = s.deleteLog := rfl

@[simp] theorem setDesc_length (s : BufMgr) (i : Nat) (d : BufDesc) :
    (s.setDesc i d).bufDescTable.length = s.bufDescTable.length := by
  simp [BufMgr.setDesc]

@[simp] theorem poolAt_setDesc (s : BufMgr) (i : Nat) (d : BufDesc) (j : Nat) :
    (s.setDesc i d).poolAt j = s.poolAt j := rfl

/-! ### Claim theorems (first group) -/

/-- C1: the claim states that a clean unpin (`dirty = false`) leaves the frame's
dirty flag unchanged.  The code sets the flag unconditionally: in a one-frame
pool, after fetching page (1,1) the frame is clean, and unpinning it with
`dirty = false` decrements the pin count but turns the dirty flag on. -/
theorem claim1_clean_unpin_marks_dirty :
    ((fetchS (BufMgr.init 1) 1 1).desc 0).dirty = false ∧
    ((unpinS (fetchS (BufMgr.init 1) 1 1) 1 1 false).desc 0).dirty = true ∧
    ((unpinS (fetchS (BufMgr.init 1) 1 1) 1 1 false).desc 0).pinCnt = 0 := by
  decide

/-- C2 counterexample: in a 2-frame pool reached by fetching (1,1), (1,2) and
unpinning (1,2), frame 1 is valid and unpinned (its reference bit set), yet
`allocBuf` raises the capacity-exhausted error — refuting the claim that the
error is raised only when every frame is pinned. -/
theorem claim2_counterexample :
    ((unpinS (fetchS (fetchS (BufMgr.init 2) 1 1) 1 2) 1 2 false).desc 1).valid = true ∧
    ((unpinS (fetchS (fetchS (BufMgr.init 2) 1 1) 1 2) 1 2 false).desc 1).pinCnt = 0 ∧
    isBufferExceeded
      (allocBuf (unpinS (fetchS (fetchS (BufMgr.init 2) 1 1) 1 2) 1 2 false)) = true := by
  decide

/-- C6: `unPinPage` on a non-resident page is a no-op returning the state
unchanged with no error; on a resident page with pin count zero it throws the
not-pinned error; and an error is thrown in exactly that case. -/
theorem claim6_unpin_error_cases (s : BufMgr) (f p : Nat) (d : Bool) :
    (hLookup s.hashTable (f, p) = none → unPinPage s f p d = .ok s) ∧
    (∀ fid, hLookup s.hashTable (f, p) = some fid → (s.desc fid).pinCnt = 0 →
      unPinPage s f p d = .error (.pageNotPinned f p fid, s)) ∧
    ((∃ e t, unPinPage s f p d = .error (e, t)) ↔
      ∃ fid, hLookup s.hashTable (f, p) = some fid ∧ (s.desc fid).pinCnt = 0) := by
  refine ⟨?_, ?_, ?_⟩
  · intro h
    simp [unPinPage, h]
  · intro fid h hp
    simp [unPinPage, h, hp]
  · constructor
    · rintro ⟨e, t, he⟩
      cases hl : hLookup s.hashTable (f, p) with
      | none => simp [unPinPage, hl] at he
      | some fid =>
        by_cases hp : (s.desc fid).pinCnt = 0
        · exact ⟨fid, rfl, hp⟩
        · simp [unPinPage, hl, hp] at he
    · rintro ⟨fid, hl, hp⟩
      exact ⟨.pageNotPinned f p fid, s, by simp [unPinPage, hl, hp]⟩

/-- C6 witness: on the empty two-frame pool, page (1,1) is not resident and the
unpin is a no-op. -/
theorem claim6_witness : unPinPage (BufMgr.init 2) 1 1 false = .ok (BufMgr.init 2) :=
  (claim6_unpin_error_cases (BufMgr.init 2) 1 1 false).1 (by decide)

/-- C7: the clock hand starts at `numFrames - 1` and each advance moves it by
one modulo `numFrames`, so the first allocation inspects (and selects) frame 0.
In a 3-frame pool, after fetching (1,1), (1,2), (1,3) and unpinning all three,
the hand is at frame 2 with every reference bit set and every pin count zero;
fetching (1,4) then evicts frame 0 on the second pass — frame 0 now holds page
4 while frames 1 and 2 keep pages 2 and 3 with their reference bits cleared by
the first pass, and page (1,1) is gone from the index. -/
theorem claim7_clock_scenario :
    (∀ n : Nat, (BufMgr.init n).clockHand = n - 1) ∧
    (∀ s : BufMgr, s.advanceClock.clockHand = (s.clockHand + 1) % s.numBufs) ∧
    fetchFrame (BufMgr.init 3) 1 1 = some 0 ∧
    (let s3 := unpinS (unpinS (unpinS
        (fetchS (fetchS (fetchS (BufMgr.init 3) 1 1) 1 2) 1 3) 1 1 false) 1 2 false) 1 3 false
     s3.clockHand = 2 ∧
     (s3.desc 0).refbit = true ∧ (s3.desc 1).refbit = true ∧ (s3.desc 2).refbit = true ∧
     (s3.desc 0).pinCnt = 0 ∧ (s3.desc 1).pinCnt = 0 ∧ (s3.desc 2).pinCnt = 0 ∧
     fetchFrame s3 1 4 = some 0 ∧
     (let s4 := fetchS s3 1 4
      (s4.desc 0).fileId = some 1 ∧ (s4.desc 0).pageNo = 4 ∧
      (s4.desc 1).refbit = false ∧ (s4.desc 2).refbit = false ∧
      (s4.desc 1).pageNo = 2 ∧ (s4.desc 2).pageNo = 3 ∧
      hLookup s4.hashTable (1, 1) = none ∧ hLookup s4.hashTable (1, 4) = some 0 ∧
      s4.clockHand = 0)) := by
  refine ⟨fun n => rfl, fun s => rfl, by decide, by decide⟩

end BufMgrModel

namespace BufMgrModel

/-- Facts the invariant yields about the frame an index hit returns. -/
theorem inv_lookup_frame {s : BufMgr} (hInv : Invariant s) {f p fid : Nat}
    (hl : hLookup s.hashTable (f, p) = some fid) :
    fid < s.numBufs ∧ fid < s.bufDescTable.length ∧ (s.desc fid).valid = true ∧
    (s.desc fid).fileId = some f ∧ (s.desc fid).pageNo = p := by
  obtain ⟨-, hlen, -, -, -, hsound, -, -⟩ := hInv
  have hm := hLookup_mem hl
  have hs := hsound _ hm
  exact ⟨hs.1, hlen ▸ hs.1, hs.2.1, hs.2.2.1, hs.2.2.2⟩

@[simp] theorem desc_hashTable_update (s : BufMgr) (x : List ((Nat × Nat) × Nat)) (j : Nat) :
    ({ s with hashTable := x } : BufMgr).desc j = s.desc j := rfl

/-- C10: `unPinPage` never evicts.  On a resident, pinned page it succeeds and
changes nothing but the hit frame's `pinCnt` (decremented) and `dirty` flag
(set): the frame stays valid with its identity and reference bit untouched,
every other descriptor, the index, the pool, the clock hand and all file-
collaborator logs are unchanged. -/
theorem claim10_unpin_no_evict (s : BufMgr) (f p fid : Nat) (d : Bool)
    (hInv : Invariant s)
    (hl : hLookup s.hashTable (f, p) = some fid)
    (hp : (s.desc fid).pinCnt ≠ 0) :
    ∃ t, unPinPage s f p d = .ok t ∧
      t.numBufs = s.numBufs ∧ t.hashTable = s.hashTable ∧ t.clockHand = s.clockHand ∧
      t.bufPool = s.bufPool ∧ t.readLog = s.readLog ∧ t.writeLog = s.writeLog ∧
      t.deleteLog = s.deleteLog ∧
      (∀ j, j ≠ fid → t.desc j = s.desc j) ∧
      (t.desc fid).valid = (s.desc fid).valid ∧
      (t.desc fid).fileId = (s.desc fid).fileId ∧
      (t.desc fid).pageNo = (s.desc fid).pageNo ∧
      (t.desc fid).refbit = (s.desc fid).refbit ∧
      (t.desc fid).pinCnt = (s.desc fid).pinCnt - 1 ∧
      (t.desc fid).dirty = true := by
  obtain ⟨-, hflen, -, -, -⟩ := inv_lookup_frame hInv hl
  refine ⟨s.setDesc fid
      { s.desc fid with dirty := true, pinCnt := (s.desc fid).pinCnt - 1 },
    by simp [unPinPage, hl, hp], rfl, rfl, rfl, rfl, rfl, rfl, rfl, ?_, ?_⟩
  · intro j hj
    exact desc_setDesc_ne s _ (fun hc => hj hc.symm)
  · rw [desc_setDesc_self s _ hflen]
    exact ⟨rfl, rfl, rfl, rfl, rfl, rfl⟩

/-- C10 witness: unpinning the single pinned page of a one-frame pool. -/
theorem claim10_witness :
    ∃ t, unPinPage (fetchS (BufMgr.init 1) 1 1) 1 1 false = .ok t ∧
      t.numBufs = (fetchS (BufMgr.init 1) 1 1).numBufs ∧
      t.hashTable = (fetchS (BufMgr.init 1) 1 1).hashTable ∧
      t.clockHand = (fetchS (BufMgr.init 1) 1 1).clockHand ∧
      t.bufPool = (fetchS (BufMgr.init 1) 1 1).bufPool ∧
      t.readLog = (fetchS (BufMgr.init 1) 1 1).readLog ∧
      t.writeLog = (fetchS (BufMgr.init 1) 1 1).writeLog ∧
      t.deleteLog = (fetchS (BufMgr.init 1) 1 1).deleteLog ∧
      (∀ j, j ≠ 0 → t.desc j = (fetchS (BufMgr.init 1) 1 1).desc j) ∧
      (t.desc 0).valid = ((fetchS (BufMgr.init 1) 1 1).desc 0).valid ∧
      (t.desc 0).fileId = ((fetchS (BufMgr.init 1) 1 1).desc 0).fileId ∧
      (t.desc 0).pageNo = ((fetchS (BufMgr.init 1) 1 1).desc 0).pageNo ∧
      (t.desc 0).refbit = ((fetchS (BufMgr.init 1) 1 1).desc 0).refbit ∧
      (t.desc 0).pinCnt = ((fetchS (BufMgr.init 1) 1 1).desc 0).pinCnt - 1 ∧
      (t.desc 0).dirty = true :=
  claim10_unpin_no_evict (fetchS (BufMgr.init 1) 1 1) 1 1 0 false
    (by decide) (by decide) (by decide)

/-- C5: `disposePage` on a resident page — with no condition on its pin count —
clears the frame's descriptor and removes the index entry without any
writeback (the write log is untouched even when the page is dirty), then
deletes the page from the file collaborator; on a non-resident page the state
changes only by the file-level deletion. -/
theorem claim5_disposePage_spec (s : BufMgr) (f p : Nat) (hInv : Invariant s) :
    (∀ fid, hLookup s.hashTable (f, p) = some fid →
      (disposePage s f p).writeLog = s.writeLog ∧
      (disposePage s f p).readLog = s.readLog ∧
      (disposePage s f p).desc fid = BufDesc.Clear ∧
      hLookup (disposePage s f p).hashTable (f, p) = none ∧
      (disposePage s f p).deleteLog = (f, p) :: s.deleteLog ∧
      (∀ j, j ≠ fid → (disposePage s f p).desc j = s.desc j)) ∧
    (hLookup s.hashTable (f, p) = none →
      disposePage s f p = { s with deleteLog := (f, p) :: s.deleteLog }) := by
  constructor
  · intro fid hl
    obtain ⟨-, hflen, -, -, -⟩ := inv_lookup_frame hInv hl
    refine ⟨?_, ?_, ?_, ?_, ?_, ?_⟩
    · simp [disposePage, hl]
    · simp [disposePage, hl]
    · have h1 := desc_setDesc_self s BufDesc.Clear hflen
      simp only [disposePage, hl]
      exact h1
    · simp only [disposePage, hl]
      exact hLookup_hRemove_self s.hashTable (f, p)
    · simp [disposePage, hl]
    · intro j hj
      have h1 := desc_setDesc_ne s BufDesc.Clear (fun hc : fid = j => hj hc.symm)
      simp only [disposePage, hl]
      exact h1
  · intro hl
    simp [disposePage, hl]

/-- C5 witness: disposing the resident, pinned page (1,1) of a one-frame pool. -/
theorem claim5_witness :
    (disposePage (fetchS (BufMgr.init 1) 1 1) 1 1).writeLog
        = (fetchS (BufMgr.init 1) 1 1).writeLog ∧
    (disposePage (fetchS (BufMgr.init 1) 1 1) 1 1).desc 0 = BufDesc.Clear ∧
    hLookup (disposePage (fetchS (BufMgr.init 1) 1 1) 1 1).hashTable (1, 1) = none :=
  have h := (claim5_disposePage_spec (fetchS (BufMgr.init 1) 1 1) 1 1 (by decide)).1
    0 (by decide)
  ⟨h.1, h.2.2.1, h.2.2.2.1⟩

end BufMgrModel

namespace BufMgrModel

theorem hLookup_hRemove_none {t : List ((Nat × Nat) × Nat)} {q : Nat × Nat}
    (h : hLookup t q = none) (k : Nat × Nat) : hLookup (hRemove t k) q = none := by
  cases hr : hLookup (hRemove t k) q with
  | none => rfl
  | some v =>
    have hm := (mem_hRemove (hLookup_mem hr)).1
    exact absurd h (mem_of_hLookup_ne_none hm)

theorem advanceClock_inv {s : BufMgr} (hInv : Invariant s) : Invariant s.advanceClock := by
  obtain ⟨hpos, hlen, hplen, hhand, hinv, hsound, hcompl, hpool⟩ := hInv
  exact ⟨hpos, hlen, hplen, Nat.mod_lt _ hpos, hinv, hsound, hcompl, hpool⟩

/-- Clearing the reference bit of a valid frame preserves the invariant. -/
theorem clearRef_inv {s : BufMgr} (hInv : Invariant s) {i : Nat}
    (hi : i < s.numBufs) (hv : (s.desc i).valid = true) :
    Invariant (s.setDesc i { s.desc i with refbit := false }) := by
  obtain ⟨hpos, hlen, hplen, hhand, hinv, hsound, hcompl, hpool⟩ := hInv
  have hilen : i < s.bufDescTable.length := hlen ▸ hi
  have hself := desc_setDesc_self s { s.desc i with refbit := false } hilen
  refine ⟨hpos, by simpa using hlen, hplen, hhand, ?_, ?_, ?_, ?_⟩
  · intro j hj hjv
    by_cases hij : i = j
    · subst hij
      rw [hself] at hjv
      simp at hjv
      exact absurd hv (by simp [hjv])
    · rw [desc_setDesc_ne s _ hij] at hjv ⊢
      exact hinv j hj hjv
  · intro e he
    have h0 := hsound e he
    by_cases hie : i = e.2
    · refine ⟨h0.1, ?_, ?_, ?_⟩
      · rw [← hie, hself]
        have hx : (s.desc i).valid = true := by rw [hie]; exact h0.2.1
        exact hx
      · rw [← hie, hself]
        have hx : (s.desc i).fileId = some e.1.1 := by rw [hie]; exact h0.2.2.1
        exact hx
      · rw [← hie, hself]
        have hx : (s.desc i).pageNo = e.1.2 := by rw [hie]; exact h0.2.2.2
        exact hx
    · rw [desc_setDesc_ne s _ hie]
      exact h0
  · intro j hj hjv
    by_cases hij : i = j
    · subst hij
      rw [hself] at hjv ⊢
      simpa using hcompl i hi hv
    · rw [desc_setDesc_ne s _ hij] at hjv ⊢
      exact hcompl j hj hjv
  · intro j hj hjv
    by_cases hij : i = j
    · subst hij
      rw [hself] at hjv ⊢
      simp only [BufMgr.setDesc]
      exact hpool i hi hv
    · rw [desc_setDesc_ne s _ hij] at hjv ⊢
      exact hpool j hj hjv

end BufMgrModel

namespace BufMgrModel

/-- Clearing a valid frame `i` — removing its index entry and resetting its
descriptor — preserves the invariant.  `w` is any state whose components are
those such a clearing produces (logs are unconstrained, as the invariant does
not mention them).  This covers the eviction path of `allocBuf` (`i` the clock
hand), `disposePage` and the per-frame body of `flushFile`. -/
theorem clearFrame_inv (s w : BufMgr) (hInv : Invariant s) (i : Nat)
    (hi : i < s.numBufs)
    (hv : (s.desc i).valid = true)
    (hwd : w.bufDescTable = s.bufDescTable.set i BufDesc.Clear)
    (hwp : w.bufPool = s.bufPool)
    (hwh : w.hashTable = hRemove s.hashTable
      (((s.desc i).fileId).getD 0, (s.desc i).pageNo))
    (hwc : w.clockHand = s.clockHand)
    (hwn : w.numBufs = s.numBufs) :
    Invariant w := by
  obtain ⟨hpos, hlen, hplen, hhand, hinv, hsound, hcompl, hpool⟩ := hInv
  have hHlen : i < s.bufDescTable.length := hlen ▸ hi
  have hkey : hLookup s.hashTable
      (((s.desc i).fileId).getD 0, (s.desc i).pageNo)
      = some i := hcompl i hi hv
  have hdesc : ∀ j, w.desc j = (s.setDesc i BufDesc.Clear).desc j := by
    intro j
    simp [BufMgr.desc, BufMgr.setDesc, hwd]
  have hdesc_self : w.desc i = BufDesc.Clear := by
    rw [hdesc]
    exact desc_setDesc_self s BufDesc.Clear hHlen
  have hdesc_ne : ∀ j, i ≠ j → w.desc j = s.desc j := by
    intro j hj
    rw [hdesc]
    exact desc_setDesc_ne s BufDesc.Clear hj
  refine ⟨hwn ▸ hpos, ?_, ?_, ?_, ?_, ?_, ?_, ?_⟩
  · rw [hwd, hwn]
    simpa using hlen
  · rw [hwp, hwn]
    exact hplen
  · rw [hwc, hwn]
    exact hhand
  · intro j hj hjv
    by_cases hij : i = j
    · rw [← hij, hdesc_self]
      exact ⟨rfl, rfl, rfl, rfl⟩
    · rw [hdesc_ne j hij] at hjv ⊢
      exact hinv j (hwn ▸ hj) hjv
  · intro e he
    have hrem := mem_hRemove (hwh ▸ he)
    have h0 := hsound e hrem.1
    have hne : i ≠ e.2 := by
      intro hc2
      apply hrem.2
      have hf : (s.desc i).fileId = some e.1.1 := by rw [hc2]; exact h0.2.2.1
      have hpg : (s.desc i).pageNo = e.1.2 := by rw [hc2]; exact h0.2.2.2
      rw [hf, hpg]
      rfl
    rw [hdesc_ne e.2 hne]
    exact ⟨hwn ▸ h0.1, h0.2.1, h0.2.2.1, h0.2.2.2⟩
  · intro j hj hjv
    by_cases hij : i = j
    · rw [← hij, hdesc_self] at hjv
      exact absurd hjv (by simp [BufDesc.Clear])
    · rw [hdesc_ne j hij] at hjv ⊢
      have hjn : j < s.numBufs := hwn ▸ hj
      have hlk := hcompl j hjn hjv
      have hkne : (((s.desc j).fileId).getD 0, (s.desc j).pageNo)
          ≠ (((s.desc i).fileId).getD 0, (s.desc i).pageNo) := by
        intro hc2
        rw [hc2, hkey] at hlk
        exact hij (Option.some_injective _ hlk)
      rw [hwh, hLookup_hRemove_ne _ hkne]
      exact hlk
  · intro j hj hjv
    by_cases hij : i = j
    · rw [← hij, hdesc_self] at hjv
      exact absurd hjv (by simp [BufDesc.Clear])
    · rw [hdesc_ne j hij] at hjv
      have hjn : j < s.numBufs := hwn ▸ hj
      have := hpool j hjn hjv
      rw [BufMgr.poolAt, hwp, hdesc_ne j hij]
      exact this

end BufMgrModel

namespace BufMgrModel

/-- Postcondition of the clock scan: the carried state satisfies the invariant
on both exits; a returned frame is in range, cleared, and keys absent from the
index before the scan are still absent. -/
def AllocPost (s : BufMgr) (r : Except (BufErr × BufMgr) (BufMgr × Nat)) : Prop :=
  match r with
  | .error (_, t) => Invariant t ∧ t.numBufs = s.numBufs
  | .ok (t, fid) => Invariant t ∧ t.numBufs = s.numBufs ∧ fid < t.numBufs ∧
      (t.desc fid).valid = false ∧
      (∀ q, hLookup s.hashTable q = none → hLookup t.hashTable q = none)

theorem AllocPost_mono {s s' : BufMgr} {r : Except (BufErr × BufMgr) (BufMgr × Nat)}
    (h : AllocPost s' r) (hn : s'.numBufs = s.numBufs)
    (hq : ∀ q, hLookup s.hashTable q = none → hLookup s'.hashTable q = none) :
    AllocPost s r := by
  cases r with
  | error a =>
    obtain ⟨e, t⟩ := a
    exact ⟨h.1, hn ▸ h.2⟩
  | ok v =>
    obtain ⟨t, fid⟩ := v
    obtain ⟨h1, h2, h3, h4, h5⟩ := h
    exact ⟨h1, hn ▸ h2, h3, h4, fun q hq0 => h5 q (hq q hq0)⟩

theorem desc_setDesc_clockHand_valid (x : BufMgr)
    (hx : x.clockHand < x.bufDescTable.length) :
    ((x.setDesc x.clockHand BufDesc.Clear).desc x.clockHand).valid = false := by
  rw [desc_setDesc_self x BufDesc.Clear hx]
  rfl

theorem allocBufLoop_post : ∀ (fuel : Nat) (s : BufMgr), Invariant s →
    AllocPost s (allocBufLoop fuel s) := by
  intro fuel
  induction fuel with
  | zero =>
    intro s hInv
    exact ⟨hInv, rfl⟩
  | succ fuel ih =>
    intro s hInv
    have hInv1 := advanceClock_inv hInv
    have hInv1' := hInv1
    obtain ⟨hpos1, hlen1, hplen1, hhand1, -, -, -, -⟩ := hInv1'
    simp only [allocBufLoop]
    split
    · -- valid = false: immediate hit
      rename_i hval
      exact ⟨hInv1, rfl, hhand1, hval, fun q h => h⟩
    · rename_i hval
      have hvt : (s.advanceClock.desc s.advanceClock.clockHand).valid = true := by
        revert hval
        cases (s.advanceClock.desc s.advanceClock.clockHand).valid <;> simp
      split
      · -- refbit set: clear it and continue
        rename_i href
        have hInv2 := clearRef_inv hInv1 hhand1 hvt
        exact AllocPost_mono (ih _ hInv2) rfl (fun q h => h)
      · rename_i href
        split
        · -- pinned: continue
          exact AllocPost_mono (ih _ hInv1) rfl (fun q h => h)
        · -- eviction
          rename_i hpin
          have hxlen : s.advanceClock.clockHand < s.advanceClock.bufDescTable.length := by
            rw [hlen1]
            exact hhand1
          by_cases hdirty : (s.advanceClock.desc s.advanceClock.clockHand).dirty = true
          · simp only [hdirty, if_true]
            refine ⟨?_, rfl, hhand1, ?_, ?_⟩
            · refine clearFrame_inv s.advanceClock _ hInv1 s.advanceClock.clockHand hhand1 hvt ?_ ?_ ?_ ?_ ?_ <;> rfl
            · exact desc_setDesc_clockHand_valid _ hxlen
            · intro q h
              exact hLookup_hRemove_none h _
          · simp only [hdirty, if_false]
            refine ⟨?_, rfl, hhand1, ?_, ?_⟩
            · refine clearFrame_inv s.advanceClock _ hInv1 s.advanceClock.clockHand hhand1 hvt ?_ ?_ ?_ ?_ ?_ <;> rfl
            · exact desc_setDesc_clockHand_valid _ hxlen
            · intro q h
              exact hLookup_hRemove_none h _

end BufMgrModel

namespace BufMgrModel

theorem setDesc_setDesc (s : BufMgr) (i : Nat) (d d' : BufDesc) :
    (s.setDesc i d).setDesc i d' = s.setDesc i d' := by
  simp [BufMgr.setDesc, List.set_set]

/-- Replacing a valid frame's descriptor by one that keeps validity and
identity (only pin count, dirty flag or reference bit change) preserves the
invariant. -/
theorem update_keep_identity_inv {s : BufMgr} (hInv : Invariant s) {i : Nat}
    (hi : i < s.numBufs) (d' : BufDesc)
    (hv : (s.desc i).valid = true) (hv' : d'.valid = true)
    (hf : d'.fileId = (s.desc i).fileId) (hpg : d'.pageNo = (s.desc i).pageNo) :
    Invariant (s.setDesc i d') := by
  obtain ⟨hpos, hlen, hplen, hhand, hinv, hsound, hcompl, hpool⟩ := hInv
  have hilen : i < s.bufDescTable.length := hlen ▸ hi
  have hself := desc_setDesc_self s d' hilen
  refine ⟨hpos, by simpa using hlen, hplen, hhand, ?_, ?_, ?_, ?_⟩
  · intro j hj hjv
    by_cases hij : i = j
    · rw [← hij, hself] at hjv
      exact absurd hv' (by simp [hjv])
    · rw [desc_setDesc_ne s _ hij] at hjv ⊢
      exact hinv j hj hjv
  · intro e he
    have h0 := hsound e he
    by_cases hie : i = e.2
    · refine ⟨h0.1, ?_, ?_, ?_⟩
      · rw [← hie, hself]
        exact hv'
      · rw [← hie, hself, hf]
        have hx : (s.desc i).fileId = some e.1.1 := by rw [hie]; exact h0.2.2.1
        exact hx
      · rw [← hie, hself, hpg]
        have hx : (s.desc i).pageNo = e.1.2 := by rw [hie]; exact h0.2.2.2
        exact hx
    · rw [desc_setDesc_ne s _ hie]
      exact h0
  · intro j hj hjv
    by_cases hij : i = j
    · rw [← hij, hself] at hjv ⊢
      rw [hf, hpg]
      simpa using hcompl i hi hv
    · rw [desc_setDesc_ne s _ hij] at hjv ⊢
      exact hcompl j hj hjv
  · intro j hj hjv
    by_cases hij : i = j
    · rw [← hij, hself] at hjv ⊢
      rw [hpg]
      simp only [BufMgr.poolAt, setDesc_bufPool]
      exact hpool i hi hv
    · rw [desc_setDesc_ne s _ hij] at hjv ⊢
      simp only [BufMgr.poolAt, setDesc_bufPool]
      exact hpool j hj hjv

/-- Registering a fresh page in a cleared frame — storing it in the pool,
inserting the index entry and setting the descriptor — preserves the
invariant.  `w` is any state with the components the miss path of
`readPage` / `allocPage` produces. -/
theorem insert_set_inv (t w : BufMgr) (hInv : Invariant t) (f p fid : Nat)
    (hfid : fid < t.numBufs) (hinval : (t.desc fid).valid = false)
    (hnone : hLookup t.hashTable (f, p) = none)
    (hwd : w.bufDescTable = t.bufDescTable.set fid (BufDesc.Set f p))
    (hwpool : w.bufPool = t.bufPool.set fid p)
    (hwh : w.hashTable = hInsert t.hashTable (f, p) fid)
    (hwc : w.clockHand = t.clockHand)
    (hwn : w.numBufs = t.numBufs) :
    Invariant w := by
  obtain ⟨hpos, hlen, hplen, hhand, hinv, hsound, hcompl, hpool⟩ := hInv
  have hflen : fid < t.bufDescTable.length := hlen ▸ hfid
  have hplen2 : fid < t.bufPool.length := hplen ▸ hfid
  have hdesc : ∀ j, w.desc j = (t.setDesc fid (BufDesc.Set f p)).desc j := by
    intro j
    simp [BufMgr.desc, BufMgr.setDesc, hwd]
  have hdesc_self : w.desc fid = BufDesc.Set f p := by
    rw [hdesc]
    exact desc_setDesc_self t _ hflen
  have hdesc_ne : ∀ j, fid ≠ j → w.desc j = t.desc j := by
    intro j hj
    rw [hdesc]
    exact desc_setDesc_ne t _ hj
  refine ⟨hwn ▸ hpos, ?_, ?_, ?_, ?_, ?_, ?_, ?_⟩
  · rw [hwd, hwn]
    simpa using hlen
  · rw [hwpool, hwn]
    simpa using hplen
  · rw [hwc, hwn]
    exact hhand
  · intro j hj hjv
    by_cases hij : fid = j
    · rw [← hij, hdesc_self] at hjv
      exact absurd hjv (by simp [BufDesc.Set])
    · rw [hdesc_ne j hij] at hjv ⊢
      exact hinv j (hwn ▸ hj) hjv
  · intro e he
    rw [hwh] at he
    rcases List.mem_cons.mp he with hhd | htl
    · rw [hhd]
      rw [show (((f, p), fid) : (Nat × Nat) × Nat).2 = fid from rfl, hdesc_self]
      exact ⟨hwn ▸ hfid, rfl, rfl, rfl⟩
    · have h0 := hsound e htl
      have hne : fid ≠ e.2 := by
        intro hc
        rw [← hc] at h0
        rw [hinval] at h0
        exact absurd h0.2.1 (by simp)
      rw [hdesc_ne e.2 hne]
      exact ⟨hwn ▸ h0.1, h0.2.1, h0.2.2.1, h0.2.2.2⟩
  · intro j hj hjv
    by_cases hij : fid = j
    · rw [← hij, hdesc_self]
      rw [hwh]
      have : ((BufDesc.Set f p).fileId.getD 0, (BufDesc.Set f p).pageNo) = (f, p) := rfl
      rw [this]
      rw [← hij] at hjv
      exact (hLookup_hInsert_self t.hashTable (f, p) fid)
    · rw [hdesc_ne j hij] at hjv ⊢
      have hjn : j < t.numBufs := hwn ▸ hj
      have hlk := hcompl j hjn hjv
      have hkne : (((t.desc j).fileId).getD 0, (t.desc j).pageNo) ≠ (f, p) := by
        intro hc
        rw [hc] at hlk
        rw [hnone] at hlk
        exact Option.noConfusion hlk
      rw [hwh, hLookup_hInsert_ne _ _ hkne]
      exact hlk
  · intro j hj hjv
    by_cases hij : fid = j
    · rw [← hij, hdesc_self]
      show w.poolAt fid = p
      rw [BufMgr.poolAt, hwpool]
      exact getD_set_self _ _ _ _ hplen2
    · rw [hdesc_ne j hij] at hjv ⊢
      have hjn : j < t.numBufs := hwn ▸ hj
      have := hpool j hjn hjv
      rw [BufMgr.poolAt, hwpool, getD_set_ne _ _ _ _ _ hij]
      exact this

end BufMgrModel

namespace BufMgrModel

theorem readPage_hit_eq (s : BufMgr) {f p fid : Nat}
    (hflen : fid < s.bufDescTable.length)
    (hl : hLookup s.hashTable (f, p) = some fid) :
    readPage s f p = .ok (s.setDesc fid
      { s.desc fid with pinCnt := (s.desc fid).pinCnt + 1, refbit := true }, fid) := by
  simp only [readPage, hl]
  rw [desc_setDesc_self s _ hflen, setDesc_setDesc]

theorem setDesc_refresh (x : BufMgr) (i f p : Nat)
    (hlen : i < x.bufDescTable.length) :
    (x.setDesc i (BufDesc.Set f p)).setDesc i
      { (x.setDesc i (BufDesc.Set f p)).desc i with refbit := true }
      = x.setDesc i (BufDesc.Set f p) := by
  rw [desc_setDesc_self x _ hlen, setDesc_setDesc]
  rfl

/-- The state the miss path of `readPage` builds from the allocator output
`t` and frame `fid` (pool slot filled, index entry inserted, descriptor set;
the redundant final reference-bit store is absorbed, as `Set` already sets
it). -/
def missResult (t : BufMgr) (f p fid : Nat) : BufMgr :=
  ({ t.fileReadInto f p fid with
      hashTable := hInsert (t.fileReadInto f p fid).hashTable (f, p) fid } : BufMgr).setDesc
    fid (BufDesc.Set f p)

theorem readPage_miss_eq (s : BufMgr) {f p : Nat} {t : BufMgr} {fid0 : Nat}
    (hnone : hLookup s.hashTable (f, p) = none)
    (halloc : allocBuf s = .ok (t, fid0))
    (hflenT : fid0 < t.bufDescTable.length) :
    readPage s f p = .ok (missResult t f p fid0, fid0) := by
  simp only [readPage, hnone, halloc]
  rw [setDesc_refresh]
  · rfl
  · exact hflenT

end BufMgrModel

namespace BufMgrModel

@[simp] theorem missResult_bufDescTable (t : BufMgr) (f p fid : Nat) :
    (missResult t f p fid).bufDescTable = t.bufDescTable.set fid (BufDesc.Set f p) := rfl

@[simp] theorem missResult_bufPool (t : BufMgr) (f p fid : Nat) :
    (missResult t f p fid).bufPool = t.bufPool.set fid p := rfl

@[simp] theorem missResult_hashTable (t : BufMgr) (f p fid : Nat) :
    (missResult t f p fid).hashTable = hInsert t.hashTable (f, p) fid := rfl

@[simp] theorem missResult_clockHand (t : BufMgr) (f p fid : Nat) :
    (missResult t f p fid).clockHand = t.clockHand := rfl

@[simp] theorem missResult_numBufs (t : BufMgr) (f p fid : Nat) :
    (missResult t f p fid).numBufs = t.numBufs := rfl

theorem missResult_desc_self (t : BufMgr) (f p fid : Nat)
    (hflen : fid < t.bufDescTable.length) :
    (missResult t f p fid).desc fid = BufDesc.Set f p := by
  have : (missResult t f p fid).desc fid
      = (t.setDesc fid (BufDesc.Set f p)).desc fid := by
    simp [BufMgr.desc, BufMgr.setDesc]
  rw [this]
  exact desc_setDesc_self t _ hflen

theorem missResult_inv (t : BufMgr) (hInvT : Invariant t) (f p fid : Nat)
    (hfid : fid < t.numBufs) (hinval : (t.desc fid).valid = false)
    (hnoneT : hLookup t.hashTable (f, p) = none) :
    Invariant (missResult t f p fid) :=
  insert_set_inv t _ hInvT f p fid hfid hinval hnoneT rfl rfl rfl rfl rfl

/-- `readPage` preserves the invariant on every exit (ok or throw). -/
theorem readPage_inv (s : BufMgr) (f p : Nat) (hInv : Invariant s) :
    (∀ e u, readPage s f p = .error (e, u) → Invariant u) ∧
    (∀ u fid, readPage s f p = .ok (u, fid) → Invariant u) := by
  cases hl : hLookup s.hashTable (f, p) with
  | some fid =>
    have hfr := inv_lookup_frame hInv hl
    have heq := readPage_hit_eq s hfr.2.1 hl
    constructor
    · intro e u h
      rw [heq] at h
      simp at h
    · intro u fid1 h
      rw [heq] at h
      obtain ⟨hu, -⟩ : s.setDesc fid { s.desc fid with
          pinCnt := (s.desc fid).pinCnt + 1, refbit := true } = u ∧ fid = fid1 := by
        simpa using h
      rw [← hu]
      exact update_keep_identity_inv hInv hfr.1 _ hfr.2.2.1 hfr.2.2.1 rfl rfl
  | none =>
    have hpost : AllocPost s (allocBuf s) := allocBufLoop_post (s.numBufs + 1) s hInv
    cases halloc : allocBuf s with
    | error a =>
      obtain ⟨e0, u0⟩ := a
      rw [halloc] at hpost
      have heqE : readPage s f p = .error (e0, u0) := by
        simp only [readPage, hl, halloc]
      constructor
      · intro e u h
        rw [heqE] at h
        obtain ⟨-, hu⟩ : e0 = e ∧ u0 = u := by simpa using h
        rw [← hu]
        exact hpost.1
      · intro u fid h
        rw [heqE] at h
        simp at h
    | ok v =>
      obtain ⟨t, fid0⟩ := v
      rw [halloc] at hpost
      obtain ⟨hInvT, hnT, hfidT, hinvalT, hqT⟩ := hpost
      have hflenT : fid0 < t.bufDescTable.length := hInvT.2.1 ▸ hfidT
      have heq := readPage_miss_eq s hl halloc hflenT
      constructor
      · intro e u h
        rw [heq] at h
        simp at h
      · intro u fid h
        rw [heq] at h
        obtain ⟨hu, -⟩ : missResult t f p fid0 = u ∧ fid0 = fid := by simpa using h
        rw [← hu]
        exact missResult_inv t hInvT f p fid0 hfidT hinvalT (hqT _ hl)

/-- `unPinPage` preserves the invariant on every exit. -/
theorem unPinPage_inv (s : BufMgr) (f p : Nat) (d : Bool) (hInv : Invariant s) :
    (∀ e u, unPinPage s f p d = .error (e, u) → Invariant u) ∧
    (∀ u, unPinPage s f p d = .ok u → Invariant u) := by
  cases hl : hLookup s.hashTable (f, p) with
  | some fid =>
    have hfr := inv_lookup_frame hInv hl
    by_cases hp : (s.desc fid).pinCnt = 0
    · constructor
      · intro e u h
        simp only [unPinPage, hl, hp, if_pos] at h
        obtain ⟨-, hu⟩ : BufErr.pageNotPinned f p fid = e ∧ s = u := by simpa using h
        rw [← hu]
        exact hInv
      · intro u h
        simp only [unPinPage, hl, hp, if_pos] at h
        simp at h
    · constructor
      · intro e u h
        simp only [unPinPage, hl, hp, if_neg] at h
        simp at h
      · intro u h
        simp only [unPinPage, hl, hp, if_neg] at h
        obtain hu : s.setDesc fid { s.desc fid with
            dirty := true, pinCnt := (s.desc fid).pinCnt - 1 } = u := by simpa using h
        rw [← hu]
        exact update_keep_identity_inv hInv hfr.1 _ hfr.2.2.1 hfr.2.2.1 rfl rfl
  | none =>
    constructor
    · intro e u h
      simp only [unPinPage, hl] at h
      simp at h
    · intro u h
      simp only [unPinPage, hl] at h
      obtain hu : s = u := by simpa using h
      rw [← hu]
      exact hInv

/-- `disposePage` preserves the invariant. -/
theorem disposePage_inv (s : BufMgr) (f p : Nat) (hInv : Invariant s) :
    Invariant (disposePage s f p) := by
  cases hl : hLookup s.hashTable (f, p) with
  | some fid =>
    have hfr := inv_lookup_frame hInv hl
    refine clearFrame_inv s _ hInv fid hfr.1 hfr.2.2.1 ?_ ?_ ?_ ?_ ?_
    · simp [disposePage, hl, BufMgr.setDesc]
    · simp [disposePage, hl]
    · simp only [disposePage, hl]
      rw [hfr.2.2.2.1, hfr.2.2.2.2]
      rfl
    · simp [disposePage, hl]
    · simp [disposePage, hl]
  | none =>
    have hd : disposePage s f p = { s with deleteLog := (f, p) :: s.deleteLog } := by
      simp [disposePage, hl]
    rw [hd]
    obtain ⟨hpos, hlen, hplen, hhand, hinv, hsound, hcompl, hpool⟩ := hInv
    exact ⟨hpos, hlen, hplen, hhand, hinv, hsound, hcompl, hpool⟩

end BufMgrModel

namespace BufMgrModel

theorem getD_ge_length {α : Type} : ∀ (l : List α) (i : Nat) (d : α),
    l.length ≤ i → l.getD i d = d
  | [], _, _, _ => rfl
  | _ :: _, 0, _, h => absurd h (by simp)
  | _ :: xs, i + 1, d, h => by
    simpa using getD_ge_length xs i d (by simpa using h)

theorem lt_length_of_fileId {s : BufMgr} {j f : Nat}
    (h : (s.desc j).fileId = some f) : j < s.bufDescTable.length := by
  by_contra hge
  rw [BufMgr.desc, getD_ge_length _ _ _ (Nat.le_of_not_lt hge)] at h
  exact Option.noConfusion h

/-- `allocPage` on allocator success produces the same state as the miss path
of `readPage` (pool slot filled, entry inserted, descriptor set). -/
theorem allocPage_eq (s : BufMgr) {t : BufMgr} {fid : Nat} (f np : Nat)
    (halloc : allocBuf s = .ok (t, fid)) :
    allocPage s f np = .ok (missResult t f np fid, np, fid) := by
  simp only [allocPage, halloc]
  rfl

/-- `allocPage` preserves the invariant on every exit, provided the page
number the file assigns is not already resident (the file collaborator
returns a fresh page). -/
theorem allocPage_inv (s : BufMgr) (f np : Nat) (hInv : Invariant s)
    (hfresh : hLookup s.hashTable (f, np) = none) :
    (∀ e u, allocPage s f np = .error (e, u) → Invariant u) ∧
    (∀ u r fid, allocPage s f np = .ok (u, r, fid) → Invariant u ∧ r = np) := by
  have hpost : AllocPost s (allocBuf s) := allocBufLoop_post (s.numBufs + 1) s hInv
  cases halloc : allocBuf s with
  | error a =>
    obtain ⟨e0, u0⟩ := a
    rw [halloc] at hpost
    have heqE : allocPage s f np = .error (e0, u0) := by
      simp only [allocPage, halloc]
    constructor
    · intro e u h
      rw [heqE] at h
      obtain ⟨-, hu⟩ : e0 = e ∧ u0 = u := by simpa using h
      rw [← hu]
      exact hpost.1
    · intro u r fid h
      rw [heqE] at h
      simp at h
  | ok v =>
    obtain ⟨t, fid0⟩ := v
    rw [halloc] at hpost
    obtain ⟨hInvT, hnT, hfidT, hinvalT, hqT⟩ := hpost
    have heq := allocPage_eq s f np halloc
    constructor
    · intro e u h
      rw [heq] at h
      simp at h
    · intro u r fid h
      rw [heq] at h
      obtain ⟨hu, hr, -⟩ : missResult t f np fid0 = u ∧ np = r ∧ fid0 = fid := by
        simpa using h
      rw [← hu, ← hr]
      exact ⟨missResult_inv t hInvT f np fid0 hfidT hinvalT (hqT _ hfresh), rfl⟩

/-- State-component characterization of the `flushFile` loop body on a
matching frame. -/
theorem flushFrame_state (s : BufMgr) (f i : Nat)
    (hmatch : (s.desc i).fileId = some f) :
    (flushFrame s f i).bufDescTable = s.bufDescTable.set i BufDesc.Clear ∧
    (flushFrame s f i).bufPool = s.bufPool ∧
    (flushFrame s f i).hashTable = hRemove s.hashTable (f, (s.desc i).pageNo) ∧
    (flushFrame s f i).clockHand = s.clockHand ∧
    (flushFrame s f i).numBufs = s.numBufs ∧
    (∀ x ∈ s.writeLog, x ∈ (flushFrame s f i).writeLog) ∧
    ((s.desc i).dirty = true → (f, s.poolAt i) ∈ (flushFrame s f i).writeLog) ∧
    (flushFrame s f i).readLog = s.readLog ∧
    (flushFrame s f i).deleteLog = s.deleteLog := by
  by_cases hdirty : (s.desc i).dirty = true
  · refine ⟨?_, ?_, ?_, ?_, ?_, ?_, ?_, ?_, ?_⟩ <;>
      simp [flushFrame, hdirty, BufMgr.setDesc, BufMgr.writePageAt, List.set_set, hmatch]
    exact fun a b h => Or.inr h
  · refine ⟨?_, ?_, ?_, ?_, ?_, ?_, ?_, ?_, ?_⟩ <;>
      simp [flushFrame, hdirty, BufMgr.setDesc]

theorem flushFrame_inv (s : BufMgr) (hInv : Invariant s) (f i : Nat)
    (hi : i < s.numBufs) (hmatch : (s.desc i).fileId = some f)
    (hv : (s.desc i).valid = true) :
    Invariant (flushFrame s f i) := by
  obtain ⟨hd, hp, hh, hc, hn, -, -, -, -⟩ := flushFrame_state s f i hmatch
  refine clearFrame_inv s _ hInv i hi hv hd hp ?_ hc hn
  rw [hh, hmatch]
  rfl

/-- A frame whose descriptor names file `f` is valid (under the invariant):
a cleared frame carries no file. -/
theorem valid_of_fileId {s : BufMgr} (hInv : Invariant s) {i f : Nat}
    (hmatch : (s.desc i).fileId = some f) :
    (s.desc i).valid = true ∧ i < s.numBufs := by
  obtain ⟨-, hlen, -, -, hinv, -, -, -⟩ := hInv
  have hiN : i < s.numBufs := hlen ▸ lt_length_of_fileId hmatch
  cases hval : (s.desc i).valid with
  | true => exact ⟨rfl, hiN⟩
  | false =>
    have := (hinv i hiN hval).2.2.1
    rw [this] at hmatch
    exact Option.noConfusion hmatch

end BufMgrModel

namespace BufMgrModel

/-- The `flushFile` scan preserves the invariant on both exits. -/
theorem flushFileAux_inv (f : Nat) : ∀ (fuel i : Nat) (s : BufMgr), Invariant s →
    (∀ u, flushFileAux f fuel i s = .ok u → Invariant u) ∧
    (∀ e u, flushFileAux f fuel i s = .error (e, u) → Invariant u) := by
  intro fuel
  induction fuel with
  | zero =>
    intro i s hInv
    constructor
    · intro u h
      obtain hu : s = u := by simpa [flushFileAux] using h
      rw [← hu]
      exact hInv
    · intro e u h
      simp [flushFileAux] at h
  | succ fuel ih =>
    intro i s hInv
    by_cases hmatch : (s.desc i).fileId = some f
    · obtain ⟨hv, hiN⟩ := valid_of_fileId hInv hmatch
      by_cases hpin : (s.desc i).pinCnt > 0
      · constructor
        · intro u h
          simp only [flushFileAux, hmatch, if_pos, hpin] at h
          simp at h
        · intro e u h
          simp only [flushFileAux, hmatch, if_pos, hpin] at h
          obtain ⟨-, hu⟩ : BufErr.pagePinned f (s.desc i).pageNo i = e ∧ s = u := by
            simpa using h
          rw [← hu]
          exact hInv
      · have hInv2 := flushFrame_inv s hInv f i hiN hmatch hv
        constructor
        · intro u h
          simp only [flushFileAux, hmatch, if_pos, hpin, if_neg] at h
          exact (ih (i + 1) _ hInv2).1 u h
        · intro e u h
          simp only [flushFileAux, hmatch, if_pos, hpin, if_neg] at h
          exact (ih (i + 1) _ hInv2).2 e u h
    · constructor
      · intro u h
        simp only [flushFileAux, hmatch, if_neg] at h
        exact (ih (i + 1) s hInv).1 u h
      · intro e u h
        simp only [flushFileAux, hmatch, if_neg] at h
        exact (ih (i + 1) s hInv).2 e u h

end BufMgrModel

namespace BufMgrModel

/-- Full characterization of a successful `flushFile` scan starting at frame
`i`: the invariant still holds, frames before `i` are untouched, no frame from
`i` on names file `f` any more, the index holds no key of file `f`, the write
log only grew, and every dirty frame of `f` in the scanned range was written
back. -/
theorem flushFileAux_ok (f : Nat) : ∀ (fuel i : Nat) (s u : BufMgr),
    Invariant s →
    (∀ e ∈ s.hashTable, e.1.1 = f → i ≤ e.2) →
    s.numBufs ≤ i + fuel →
    flushFileAux f fuel i s = .ok u →
    Invariant u ∧ u.numBufs = s.numBufs ∧
    (∀ j, j < i → u.desc j = s.desc j) ∧
    (∀ j, i ≤ j → (u.desc j).fileId ≠ some f) ∧
    (∀ q : Nat × Nat, q.1 = f → hLookup u.hashTable q = none) ∧
    (∀ x ∈ s.writeLog, x ∈ u.writeLog) ∧
    (∀ j, i ≤ j → j < s.numBufs → (s.desc j).fileId = some f →
      (s.desc j).dirty = true → (f, (s.desc j).pageNo) ∈ u.writeLog) := by
  intro fuel
  induction fuel with
  | zero =>
    intro i s u hInv hpre hbound h
    obtain hu : s = u := by simpa [flushFileAux] using h
    rw [← hu]
    have hsound := hInv.2.2.2.2.2.1
    have hN : s.numBufs ≤ i := by simpa using hbound
    refine ⟨hInv, rfl, fun j _ => rfl, ?_, ?_, fun x hx => hx, ?_⟩
    · intro j hj hc
      have hjlen := lt_length_of_fileId hc
      have : j < s.numBufs := hInv.2.1 ▸ hjlen
      omega
    · intro q hq
      cases hlk : hLookup s.hashTable q with
      | none => rfl
      | some v =>
        have hm := hLookup_mem hlk
        have h1 := hpre _ hm hq
        have h2 := (hsound _ hm).1
        omega
    · intro j hj hjN
      omega
  | succ fuel ih =>
    intro i s u hInv hpre hbound h
    by_cases hmatch : (s.desc i).fileId = some f
    · obtain ⟨hv, hiN⟩ := valid_of_fileId hInv hmatch
      by_cases hpin : (s.desc i).pinCnt > 0
      · simp only [flushFileAux, hmatch, if_pos, hpin] at h
        simp at h
      · simp only [flushFileAux, hmatch, if_pos, hpin, if_neg] at h
        obtain ⟨hd, hp, hh, hc, hn, hmono, hwrite, -, -⟩ := flushFrame_state s f i hmatch
        have hInv2 := flushFrame_inv s hInv f i hiN hmatch hv
        have hilen : i < s.bufDescTable.length := hInv.2.1 ▸ hiN
        have hdesc2 : ∀ j, i ≠ j → (flushFrame s f i).desc j = s.desc j := by
          intro j hj
          rw [BufMgr.desc, hd]
          exact getD_set_ne _ _ _ _ _ hj
        have hdesc2i : (flushFrame s f i).desc i = BufDesc.Clear := by
          rw [BufMgr.desc, hd]
          exact getD_set_self _ _ _ _ hilen
        have hpre2 : ∀ e ∈ (flushFrame s f i).hashTable, e.1.1 = f → i + 1 ≤ e.2 := by
          intro e he hef
          rw [hh] at he
          obtain ⟨het, hek⟩ := mem_hRemove he
          have h1 := hpre _ het hef
          rcases Nat.lt_or_ge i e.2 with hlt | hge
          · omega
          · exfalso
            have hei : e.2 = i := by omega
            apply hek
            have hsnd := hInv.2.2.2.2.2.1 _ het
            have hf1 : (s.desc i).fileId = some e.1.1 := by rw [← hei]; exact hsnd.2.2.1
            have hp1 : (s.desc i).pageNo = e.1.2 := by rw [← hei]; exact hsnd.2.2.2
            rw [hmatch] at hf1
            have : e.1.1 = f := by
              have := Option.some_injective _ hf1
              omega
            rw [show e.1 = (e.1.1, e.1.2) from rfl, this, ← hp1]
        have hbound2 : (flushFrame s f i).numBufs ≤ (i + 1) + fuel := by
          rw [hn]
          omega
        obtain ⟨c1, c2, c3, c4, c5, c6, c7⟩ := ih (i + 1) _ u hInv2 hpre2 hbound2 h
        refine ⟨c1, by rw [c2, hn], ?_, ?_, c5, ?_, ?_⟩
        · intro j hj
          rw [c3 j (by omega), hdesc2 j (by omega)]
        · intro j hj
          rcases Nat.eq_or_lt_of_le hj with hji | hji
          · rw [c3 j (by omega), ← hji, hdesc2i]
            simp [BufDesc.Clear]
          · exact c4 j (by omega)
        · intro x hx
          exact c6 x (hmono x hx)
        · intro j hj hjN hjf hjd
          rcases Nat.eq_or_lt_of_le hj with hji | hji
          · have hpl : s.poolAt i = (s.desc i).pageNo :=
              hInv.2.2.2.2.2.2.2 i hiN hv
            rw [← hji, ← hpl]
            exact c6 _ (hwrite (by rw [hji]; exact hjd))
          · have hjf2 : ((flushFrame s f i).desc j).fileId = some f := by
              rw [hdesc2 j (by omega)]
              exact hjf
            have hjd2 : ((flushFrame s f i).desc j).dirty = true := by
              rw [hdesc2 j (by omega)]
              exact hjd
            have := c7 j (by omega) (by rw [hn]; exact hjN) hjf2 hjd2
            rw [hdesc2 j (by omega)] at this
            exact this
    · simp only [flushFileAux, hmatch, if_neg] at h
      have hpre2 : ∀ e ∈ s.hashTable, e.1.1 = f → i + 1 ≤ e.2 := by
        intro e he hef
        have h1 := hpre _ he hef
        have hsnd := hInv.2.2.2.2.2.1 _ he
        rcases Nat.lt_or_ge i e.2 with hlt | hge
        · omega
        · exfalso
          have hei : e.2 = i := by omega
          apply hmatch
          have hf1 : (s.desc i).fileId = some e.1.1 := by rw [← hei]; exact hsnd.2.2.1
          rw [hf1, hef]
      obtain ⟨c1, c2, c3, c4, c5, c6, c7⟩ := ih (i + 1) s u hInv hpre2 (by omega) h
      refine ⟨c1, c2, ?_, ?_, c5, c6, ?_⟩
      · intro j hj
        exact c3 j (by omega)
      · intro j hj
        rcases Nat.eq_or_lt_of_le hj with hji | hji
        · rw [c3 j (by omega), ← hji]
          exact fun hc => hmatch hc
        · exact c4 j (by omega)
      · intro j hj hjN hjf hjd
        rcases Nat.eq_or_lt_of_le hj with hji | hji
        · exact absurd (hji ▸ hjf) hmatch
        · exact c7 j (by omega) hjN hjf hjd

end BufMgrModel

namespace BufMgrModel

/-- Full characterization of a `flushFile` scan that hits a pinned frame:
`i` is the first matching pinned frame at or after the start index `i0`; the
error names it; frames before the scan start or at/after `i` are untouched;
matching frames already passed are flushed (written back if dirty) and
cleared, non-matching passed frames untouched; the write log only grew. -/
theorem flushFileAux_error (f : Nat) : ∀ (fuel i0 : Nat) (s : BufMgr) (e : BufErr) (u : BufMgr),
    flushFileAux f fuel i0 s = .error (e, u) →
    ∃ i, i0 ≤ i ∧ i < i0 + fuel ∧ (s.desc i).fileId = some f ∧ (s.desc i).pinCnt > 0 ∧
      e = .pagePinned f (s.desc i).pageNo i ∧
      (∀ j, i0 ≤ j → j < i → (s.desc j).fileId = some f → (s.desc j).pinCnt = 0) ∧
      (∀ j, j < i0 ∨ i ≤ j → u.desc j = s.desc j) ∧
      (∀ j, i0 ≤ j → j < i → (s.desc j).fileId = some f →
        u.desc j = BufDesc.Clear ∧
        ((s.desc j).dirty = true → (f, s.poolAt j) ∈ u.writeLog)) ∧
      (∀ j, i0 ≤ j → j < i → (s.desc j).fileId ≠ some f → u.desc j = s.desc j) ∧
      (∀ x ∈ s.writeLog, x ∈ u.writeLog) ∧
      u.bufPool = s.bufPool ∧ u.numBufs = s.numBufs := by
  intro fuel
  induction fuel with
  | zero =>
    intro i0 s e u h
    simp [flushFileAux] at h
  | succ fuel ih =>
    intro i0 s e u h
    by_cases hmatch : (s.desc i0).fileId = some f
    · by_cases hpin : (s.desc i0).pinCnt > 0
      · simp only [flushFileAux, hmatch, if_pos, hpin] at h
        obtain ⟨he, hu⟩ : BufErr.pagePinned f (s.desc i0).pageNo i0 = e ∧ s = u := by
          simpa using h
        refine ⟨i0, Nat.le_refl i0, by omega, hmatch, hpin, he.symm, ?_, ?_, ?_, ?_, ?_, ?_, ?_⟩
        · intro j hj1 hj2 _
          omega
        · intro j _
          rw [← hu]
        · intro j hj1 hj2
          omega
        · intro j hj1 hj2
          omega
        · intro x hx
          rw [← hu]
          exact hx
        · rw [← hu]
        · rw [← hu]
      · simp only [flushFileAux, hmatch, if_pos, hpin, if_neg] at h
        obtain ⟨hd, hp, hh, hc, hn, hmono, hwrite, -, -⟩ :=
          flushFrame_state s f i0 hmatch
        have hilen : i0 < s.bufDescTable.length := lt_length_of_fileId hmatch
        have hdesc2 : ∀ j, i0 ≠ j → (flushFrame s f i0).desc j = s.desc j := by
          intro j hj
          rw [BufMgr.desc, hd]
          exact getD_set_ne _ _ _ _ _ hj
        have hdesc2i : (flushFrame s f i0).desc i0 = BufDesc.Clear := by
          rw [BufMgr.desc, hd]
          exact getD_set_self _ _ _ _ hilen
        have hpool2 : ∀ j, (flushFrame s f i0).poolAt j = s.poolAt j := by
          intro j
          rw [BufMgr.poolAt, hp, BufMgr.poolAt]
        obtain ⟨i, d1, d2, d3, d4, d5, d6, d7, d8, d9, d10, d11, d12⟩ :=
          ih (i0 + 1) (flushFrame s f i0) e u h
        have hine : i0 ≠ i := by omega
        refine ⟨i, by omega, by omega, by rw [← hdesc2 i hine]; exact d3,
          by rw [← hdesc2 i hine]; exact d4,
          by rw [← hdesc2 i hine]; exact d5, ?_, ?_, ?_, ?_, ?_, ?_, ?_⟩
        · intro j hj1 hj2 hjf
          rcases Nat.eq_or_lt_of_le hj1 with hji | hji
          · rw [← hji]
            omega
          · rw [← hdesc2 j (by omega)]
            exact d6 j (by omega) hj2 (by rw [hdesc2 j (by omega)]; exact hjf)
        · intro j hj
          have hj2 : j < i0 + 1 ∨ i ≤ j := by omega
          have hne : i0 ≠ j := by omega
          rw [d7 j hj2, hdesc2 j hne]
        · intro j hj1 hj2 hjf
          rcases Nat.eq_or_lt_of_le hj1 with hji | hji
          · constructor
            · rw [d7 j (by omega), ← hji, hdesc2i]
            · intro hjd
              rw [← hji]
              exact d10 _ (hwrite (by rw [hji]; exact hjd))
          · have hds : (flushFrame s f i0).desc j = s.desc j := hdesc2 j (by omega)
            obtain ⟨e1, e2⟩ := d8 j (by omega) hj2 (by rw [hds]; exact hjf)
            refine ⟨e1, fun hjd => ?_⟩
            have := e2 (by rw [hds]; exact hjd)
            rw [hpool2 j] at this
            exact this
        · intro j hj1 hj2 hjf
          rcases Nat.eq_or_lt_of_le hj1 with hji | hji
          · exact absurd (hji ▸ hmatch) hjf
          · rw [d9 j (by omega) hj2 (by rw [hdesc2 j (by omega)]; exact hjf),
              hdesc2 j (by omega)]
        · intro x hx
          exact d10 x (hmono x hx)
        · rw [d11, hp]
        · rw [d12, hn]
    · simp only [flushFileAux, hmatch, if_neg] at h
      obtain ⟨i, d1, d2, d3, d4, d5, d6, d7, d8, d9, d10, d11, d12⟩ :=
        ih (i0 + 1) s e u h
      refine ⟨i, by omega, by omega, d3, d4, d5, ?_, ?_, ?_, ?_, d10, d11, d12⟩
      · intro j hj1 hj2 hjf
        rcases Nat.eq_or_lt_of_le hj1 with hji | hji
        · exact absurd (hji ▸ hmatch) (fun hc => hc hjf)
        · exact d6 j (by omega) hj2 hjf
      · intro j hj
        rcases hj with hj | hj
        · exact d7 j (Or.inl (by omega))
        · exact d7 j (Or.inr hj)
      · intro j hj1 hj2 hjf
        rcases Nat.eq_or_lt_of_le hj1 with hji | hji
        · exact absurd (hji ▸ hjf) hmatch
        · exact d8 j (by omega) hj2 hjf
      · intro j hj1 hj2 hjf
        rcases Nat.eq_or_lt_of_le hj1 with hji | hji
        · rw [d7 j (Or.inl (by omega))]
        · exact d9 j (by omega) hj2 hjf

end BufMgrModel

namespace BufMgrModel

theorem allocBufLoop_succ_invalid (fuel : Nat) (s : BufMgr)
    (hval : (s.advanceClock.desc s.advanceClock.clockHand).valid = false) :
    allocBufLoop (fuel + 1) s = .ok (s.advanceClock, s.advanceClock.clockHand) := by
  simp only [allocBufLoop]
  rw [if_pos hval]

theorem allocBufLoop_succ_refbit (fuel : Nat) (s : BufMgr)
    (hval : (s.advanceClock.desc s.advanceClock.clockHand).valid = true)
    (href : (s.advanceClock.desc s.advanceClock.clockHand).refbit = true) :
    allocBufLoop (fuel + 1) s = allocBufLoop fuel
      (s.advanceClock.setDesc s.advanceClock.clockHand
        { s.advanceClock.desc s.advanceClock.clockHand with refbit := false }) := by
  simp only [allocBufLoop]
  rw [if_neg (by rw [hval]; simp), if_pos href]

theorem allocBufLoop_succ_pinned (fuel : Nat) (s : BufMgr)
    (hval : (s.advanceClock.desc s.advanceClock.clockHand).valid = true)
    (href : (s.advanceClock.desc s.advanceClock.clockHand).refbit = false)
    (hpin : (s.advanceClock.desc s.advanceClock.clockHand).pinCnt > 0) :
    allocBufLoop (fuel + 1) s = allocBufLoop fuel s.advanceClock := by
  simp only [allocBufLoop]
  rw [if_neg (by rw [hval]; simp), if_neg (by rw [href]; simp), if_pos hpin]

theorem allocBufLoop_succ_evict (fuel : Nat) (s : BufMgr)
    (hval : (s.advanceClock.desc s.advanceClock.clockHand).valid = true)
    (href : (s.advanceClock.desc s.advanceClock.clockHand).refbit = false)
    (hpin : ¬((s.advanceClock.desc s.advanceClock.clockHand).pinCnt > 0)) :
    ∃ t fid, allocBufLoop (fuel + 1) s = .ok (t, fid) := by
  cases hres : allocBufLoop (fuel + 1) s with
  | ok v => exact ⟨v.1, v.2, rfl⟩
  | error a =>
    exfalso
    simp only [allocBufLoop] at hres
    rw [if_neg (by rw [hval]; simp), if_neg (by rw [href]; simp), if_neg hpin] at hres
    exact Except.noConfusion hres

end BufMgrModel

namespace BufMgrModel

/-- A frame eligible for selection by the clock scan: invalid, or unpinned
with its reference bit clear. -/
def Elig (d : BufDesc) : Prop :=
  d.valid = false ∨ (d.pinCnt = 0 ∧ d.refbit = false)

/-- If the frame `k` advances ahead of the hand (`1 ≤ k ≤ fuel`) is eligible,
the clock scan succeeds: the `continue` branches never pin, validate or set a
reference bit, so the frame is still eligible when the hand reaches it. -/
theorem allocBufLoop_elig_ok :
    ∀ (fuel : Nat) (s : BufMgr) (j k : Nat),
    s.bufDescTable.length = s.numBufs → 0 < s.numBufs →
    j < s.numBufs → Elig (s.desc j) →
    1 ≤ k → k ≤ fuel → (s.clockHand + k) % s.numBufs = j →
    ∃ t fid, allocBufLoop fuel s = .ok (t, fid) := by
  intro fuel
  induction fuel with
  | zero =>
    intro s j k _ _ _ _ hk1 hk2 _
    omega
  | succ fuel ih =>
    intro s j k hlen hpos hj helig hk1 hk2 hkj
    by_cases hval : (s.advanceClock.desc s.advanceClock.clockHand).valid = false
    · exact ⟨_, _, allocBufLoop_succ_invalid fuel s hval⟩
    · have hvt : (s.advanceClock.desc s.advanceClock.clockHand).valid = true := by
        revert hval
        cases (s.advanceClock.desc s.advanceClock.clockHand).valid <;> simp
      by_cases href : (s.advanceClock.desc s.advanceClock.clockHand).refbit = true
      · -- reference bit set: cleared, continue
        have hne : s.advanceClock.clockHand ≠ j := by
          intro hc
          rcases helig with h1 | ⟨-, h3⟩
          · have hx : (s.desc j).valid = true := by rw [← hc]; exact hvt
            rw [h1] at hx
            exact Bool.noConfusion hx
          · have hx : (s.desc j).refbit = true := by rw [← hc]; exact href
            rw [h3] at hx
            exact Bool.noConfusion hx
        have hk2' : 2 ≤ k := by
          rcases Nat.eq_or_lt_of_le hk1 with h | h
          · exfalso
            apply hne
            show (s.clockHand + 1) % s.numBufs = j
            rw [← hkj, ← h]
          · omega
        have hstep : ((s.clockHand + 1) % s.numBufs + (k - 1)) % s.numBufs = j := by
          rw [Nat.mod_add_mod]
          have hx : s.clockHand + 1 + (k - 1) = s.clockHand + k := by omega
          rw [hx]
          exact hkj
        obtain ⟨t, fid, hok⟩ := ih
          (s.advanceClock.setDesc s.advanceClock.clockHand
            { s.advanceClock.desc s.advanceClock.clockHand with refbit := false })
          j (k - 1)
          (by simpa [BufMgr.setDesc] using hlen)
          hpos hj
          (by
            have hx : (s.advanceClock.setDesc s.advanceClock.clockHand
                { s.advanceClock.desc s.advanceClock.clockHand with
                  refbit := false }).desc j = s.desc j :=
              desc_setDesc_ne _ _ hne
            rw [hx]
            exact helig)
          (by omega) (by omega) hstep
        refine ⟨t, fid, ?_⟩
        rw [allocBufLoop_succ_refbit fuel s hvt href]
        exact hok
      · have hrf : (s.advanceClock.desc s.advanceClock.clockHand).refbit = false := by
          revert href
          cases (s.advanceClock.desc s.advanceClock.clockHand).refbit <;> simp
        by_cases hpin : (s.advanceClock.desc s.advanceClock.clockHand).pinCnt > 0
        · -- pinned: continue with the state unchanged (but the hand advanced)
          have hne : s.advanceClock.clockHand ≠ j := by
            intro hc
            rcases helig with h1 | ⟨h2, -⟩
            · have hx : (s.desc j).valid = true := by rw [← hc]; exact hvt
              rw [h1] at hx
              exact Bool.noConfusion hx
            · have hx : (s.advanceClock.desc j).pinCnt > 0 := by
                rw [hc] at hpin
                exact hpin
              have hy : (s.desc j).pinCnt > 0 := hx
              omega
          have hk2' : 2 ≤ k := by
            rcases Nat.eq_or_lt_of_le hk1 with h | h
            · exfalso
              apply hne
              show (s.clockHand + 1) % s.numBufs = j
              rw [← hkj, ← h]
            · omega
          have hstep : ((s.clockHand + 1) % s.numBufs + (k - 1)) % s.numBufs = j := by
            rw [Nat.mod_add_mod]
            have hx : s.clockHand + 1 + (k - 1) = s.clockHand + k := by omega
            rw [hx]
            exact hkj
          obtain ⟨t, fid, hok⟩ := ih s.advanceClock j (k - 1)
            hlen hpos hj helig (by omega) (by omega) hstep
          refine ⟨t, fid, ?_⟩
          rw [allocBufLoop_succ_pinned fuel s hvt hrf hpin]
          exact hok
        · exact allocBufLoop_succ_evict fuel s hvt hrf hpin

end BufMgrModel

namespace BufMgrModel

/-- C2 (amended): the clock allocator — whose scan is bounded at
`numFrames + 1` inspected positions by construction, advancing the hand
before each inspection — returns a usable frame index whenever some frame is
invalid, or some frame is unpinned with its reference bit clear.  (As the
counterexample shows, the bound does not suffice when every unpinned frame
has its reference bit set and a pinned frame is revisited first, so the
error can be raised even though not every frame is pinned.) -/
theorem claim2_alloc_succeeds (s : BufMgr) (j : Nat)
    (hInv : Invariant s) (hj : j < s.numBufs)
    (helig : (s.desc j).valid = false ∨
      ((s.desc j).pinCnt = 0 ∧ (s.desc j).refbit = false)) :
    ∃ t fid, allocBuf s = .ok (t, fid) ∧ fid < s.numBufs := by
  have hpos : 0 < s.numBufs := hInv.1
  have hlen : s.bufDescTable.length = s.numBufs := hInv.2.1
  have hhand : s.clockHand < s.numBufs := hInv.2.2.2.1
  obtain ⟨k, hk1, hk2, hkj⟩ :
      ∃ k, 1 ≤ k ∧ k ≤ s.numBufs ∧ (s.clockHand + k) % s.numBufs = j := by
    by_cases hgt : s.clockHand < j
    · refine ⟨j - s.clockHand, by omega, by omega, ?_⟩
      rw [show s.clockHand + (j - s.clockHand) = j by omega]
      exact Nat.mod_eq_of_lt hj
    · refine ⟨s.numBufs + j - s.clockHand, by omega, by omega, ?_⟩
      rw [show s.clockHand + (s.numBufs + j - s.clockHand) = s.numBufs + j by omega]
      rw [Nat.add_mod_left]
      exact Nat.mod_eq_of_lt hj
  obtain ⟨t, fid, hok⟩ := allocBufLoop_elig_ok (s.numBufs + 1) s j k
    hlen hpos hj helig hk1 (by omega) hkj
  have hok2 : allocBuf s = .ok (t, fid) := hok
  have hpost := allocBufLoop_post (s.numBufs + 1) s hInv
  rw [show AllocPost s (allocBufLoop (s.numBufs + 1) s) = AllocPost s (allocBuf s) from rfl,
    hok2] at hpost
  exact ⟨t, fid, hok2, by rw [← hpost.2.1]; exact hpost.2.2.1⟩

/-- C2 witness: on a freshly constructed 2-frame pool every frame is invalid,
so allocation succeeds. -/
theorem claim2_witness :
    ∃ t fid, allocBuf (BufMgr.init 2) = .ok (t, fid) ∧ fid < (BufMgr.init 2).numBufs :=
  claim2_alloc_succeeds (BufMgr.init 2) 0 (by decide) (by decide) (Or.inl (by decide))

end BufMgrModel

namespace BufMgrModel

/-- Runs `flushFile` and keeps the resulting state. -/
def flushS (s : BufMgr) (f : Nat) : BufMgr :=
  match flushFile s f with
  | .ok t => t
  | .error (_, t) => t

/-- C3: after every public operation — fetch (`readPage`), `unPinPage`,
allocate (`allocPage`, given that the file assigns a page not already
resident), `disposePage` and `flushFile`, on success or on throw — the state
invariant holds: a non-valid frame has pin count zero and a clear dirty flag,
and the page-identity index and descriptor table agree: every entry points to
a valid frame carrying exactly that key, every valid frame is indexed at its
own identity, and (consequently) at most one valid frame carries any given
(file, page) pair — exactly the frame the index maps it to. -/
theorem claim3_invariant_preserved (s : BufMgr) (f p np : Nat) (d : Bool)
    (hInv : Invariant s) :
    ((∀ u fid, readPage s f p = .ok (u, fid) → Invariant u) ∧
     (∀ e u, readPage s f p = .error (e, u) → Invariant u)) ∧
    ((∀ u, unPinPage s f p d = .ok u → Invariant u) ∧
     (∀ e u, unPinPage s f p d = .error (e, u) → Invariant u)) ∧
    (hLookup s.hashTable (f, np) = none →
      (∀ u r fid, allocPage s f np = .ok (u, r, fid) → Invariant u) ∧
      (∀ e u, allocPage s f np = .error (e, u) → Invariant u)) ∧
    Invariant (disposePage s f p) ∧
    ((∀ u, flushFile s f = .ok u → Invariant u) ∧
     (∀ e u, flushFile s f = .error (e, u) → Invariant u)) ∧
    (∀ i j, i < s.numBufs → j < s.numBufs →
      (s.desc i).valid = true → (s.desc j).valid = true →
      (s.desc i).fileId = (s.desc j).fileId →
      (s.desc i).pageNo = (s.desc j).pageNo → i = j) := by
  refine ⟨⟨(readPage_inv s f p hInv).2, (readPage_inv s f p hInv).1⟩,
    ⟨(unPinPage_inv s f p d hInv).2, (unPinPage_inv s f p d hInv).1⟩,
    ?_, disposePage_inv s f p hInv,
    ⟨(flushFileAux_inv f s.numBufs 0 s hInv).1, (flushFileAux_inv f s.numBufs 0 s hInv).2⟩,
    ?_⟩
  · intro hfresh
    exact ⟨fun u r fid h => ((allocPage_inv s f np hInv hfresh).2 u r fid h).1,
      (allocPage_inv s f np hInv hfresh).1⟩
  · intro i j hi hj hvi hvj hfe hpe
    have hci := hInv.2.2.2.2.2.2.1 i hi hvi
    have hcj := hInv.2.2.2.2.2.2.1 j hj hvj
    rw [hfe, hpe] at hci
    rw [hci] at hcj
    exact Option.some_injective _ hcj

/-- C3 witness: the invariant after disposing a page on a fresh pool. -/
theorem claim3_witness : Invariant (disposePage (BufMgr.init 2) 1 1) :=
  (claim3_invariant_preserved (BufMgr.init 2) 1 1 1 false (by decide)).2.2.2.1

/-- C4: when `flushFile` throws the pinned-page error, the scan ran in
increasing frame order and stopped at the first pinned frame `i` of the file:
every earlier matching frame was unpinned and is now flushed (written back if
it was dirty) and cleared, earlier non-matching frames and every frame from
`i` on are untouched, and the error names file, page and frame `i`. -/
theorem claim4_flush_error_spec (s : BufMgr) (f : Nat) (e : BufErr) (u : BufMgr)
    (hInv : Invariant s) (herr : flushFile s f = .error (e, u)) :
    ∃ i, i < s.numBufs ∧ (s.desc i).fileId = some f ∧ (s.desc i).pinCnt > 0 ∧
      e = .pagePinned f (s.desc i).pageNo i ∧
      (∀ j, j < i → (s.desc j).fileId = some f → (s.desc j).pinCnt = 0) ∧
      (∀ j, i ≤ j → u.desc j = s.desc j) ∧
      (∀ j, j < i → (s.desc j).fileId = some f →
        u.desc j = BufDesc.Clear ∧
        ((s.desc j).dirty = true → (f, (s.desc j).pageNo) ∈ u.writeLog)) ∧
      (∀ j, j < i → (s.desc j).fileId ≠ some f → u.desc j = s.desc j) ∧
      u.bufPool = s.bufPool ∧ u.numBufs = s.numBufs := by
  obtain ⟨i, d1, d2, d3, d4, d5, d6, d7, d8, d9, d10, d11, d12⟩ :=
    flushFileAux_error f s.numBufs 0 s e u herr
  refine ⟨i, by omega, d3, d4, d5, ?_, ?_, ?_, ?_, d11, d12⟩
  · intro j hj hjf
    exact d6 j (Nat.zero_le j) hj hjf
  · intro j hj
    exact d7 j (Or.inr hj)
  · intro j hj hjf
    obtain ⟨e1, e2⟩ := d8 j (Nat.zero_le j) hj hjf
    refine ⟨e1, fun hjd => ?_⟩
    obtain ⟨hv, hjN⟩ := valid_of_fileId hInv hjf
    have hpl : s.poolAt j = (s.desc j).pageNo := hInv.2.2.2.2.2.2.2 j hjN hv
    rw [← hpl]
    exact e2 hjd
  · intro j hj hjf
    exact d9 j (Nat.zero_le j) hj hjf

/-- C4 witness: flushing file 1 while its page (1,1) is still pinned in a
2-frame pool fails immediately at frame 0 with the pinned-page error. -/
theorem claim4_witness :
    ∃ i, i < (fetchS (BufMgr.init 2) 1 1).numBufs ∧
      ((fetchS (BufMgr.init 2) 1 1).desc i).fileId = some 1 ∧
      ((fetchS (BufMgr.init 2) 1 1).desc i).pinCnt > 0 ∧
      BufErr.pagePinned 1 1 0
        = .pagePinned 1 ((fetchS (BufMgr.init 2) 1 1).desc i).pageNo i ∧
      (∀ j, j < i → ((fetchS (BufMgr.init 2) 1 1).desc j).fileId = some 1 →
        ((fetchS (BufMgr.init 2) 1 1).desc j).pinCnt = 0) ∧
      (∀ j, i ≤ j → (fetchS (BufMgr.init 2) 1 1).desc j
        = (fetchS (BufMgr.init 2) 1 1).desc j) ∧
      (∀ j, j < i → ((fetchS (BufMgr.init 2) 1 1).desc j).fileId = some 1 →
        (fetchS (BufMgr.init 2) 1 1).desc j = BufDesc.Clear ∧
        (((fetchS (BufMgr.init 2) 1 1).desc j).dirty = true →
          (1, ((fetchS (BufMgr.init 2) 1 1).desc j).pageNo)
            ∈ (fetchS (BufMgr.init 2) 1 1).writeLog)) ∧
      (∀ j, j < i → ((fetchS (BufMgr.init 2) 1 1).desc j).fileId ≠ some 1 →
        (fetchS (BufMgr.init 2) 1 1).desc j = (fetchS (BufMgr.init 2) 1 1).desc j) ∧
      (fetchS (BufMgr.init 2) 1 1).bufPool = (fetchS (BufMgr.init 2) 1 1).bufPool ∧
      (fetchS (BufMgr.init 2) 1 1).numBufs = (fetchS (BufMgr.init 2) 1 1).numBufs :=
  claim4_flush_error_spec (fetchS (BufMgr.init 2) 1 1) 1
    (BufErr.pagePinned 1 1 0) (fetchS (BufMgr.init 2) 1 1) (by decide) (by rfl)

/-- C8: after a successful `flushFile`, no frame names the file, the index
holds no key of the file, and every frame of the file that was dirty has been
written back to the file collaborator (the write log grew monotonically and
contains the file's dirty pages). -/
theorem claim8_flush_ok_spec (s : BufMgr) (f : Nat) (u : BufMgr)
    (hInv : Invariant s) (hok : flushFile s f = .ok u) :
    (∀ j, (u.desc j).fileId ≠ some f) ∧
    (∀ p, hLookup u.hashTable (f, p) = none) ∧
    (∀ x ∈ s.writeLog, x ∈ u.writeLog) ∧
    (∀ j, j < s.numBufs → (s.desc j).fileId = some f → (s.desc j).dirty = true →
      (f, (s.desc j).pageNo) ∈ u.writeLog) ∧
    Invariant u := by
  obtain ⟨c1, c2, c3, c4, c5, c6, c7⟩ := flushFileAux_ok f s.numBufs 0 s u hInv
    (fun e _ _ => Nat.zero_le e.2) (by omega) hok
  refine ⟨fun j => c4 j (Nat.zero_le j), fun p => c5 (f, p) rfl, c6,
    fun j hj hjf hjd => c7 j (Nat.zero_le j) hj hjf hjd, c1⟩

/-- C8 witness: flushing file 1 after fetching and (dirtily) unpinning its
page (1,1) in a one-frame pool. -/
theorem claim8_witness :
    (∀ j, ((flushS (unpinS (fetchS (BufMgr.init 1) 1 1) 1 1 false) 1).desc j).fileId
      ≠ some 1) ∧
    (∀ p, hLookup (flushS (unpinS (fetchS (BufMgr.init 1) 1 1) 1 1 false) 1).hashTable
      (1, p) = none) ∧
    (∀ x ∈ (unpinS (fetchS (BufMgr.init 1) 1 1) 1 1 false).writeLog,
      x ∈ (flushS (unpinS (fetchS (BufMgr.init 1) 1 1) 1 1 false) 1).writeLog) ∧
    (∀ j, j < (unpinS (fetchS (BufMgr.init 1) 1 1) 1 1 false).numBufs →
      ((unpinS (fetchS (BufMgr.init 1) 1 1) 1 1 false).desc j).fileId = some 1 →
      ((unpinS (fetchS (BufMgr.init 1) 1 1) 1 1 false).desc j).dirty = true →
      (1, ((unpinS (fetchS (BufMgr.init 1) 1 1) 1 1 false).desc j).pageNo)
        ∈ (flushS (unpinS (fetchS (BufMgr.init 1) 1 1) 1 1 false) 1).writeLog) ∧
    Invariant (flushS (unpinS (fetchS (BufMgr.init 1) 1 1) 1 1 false) 1) :=
  claim8_flush_ok_spec (unpinS (fetchS (BufMgr.init 1) 1 1) 1 1 false) 1
    (flushS (unpinS (fetchS (BufMgr.init 1) 1 1) 1 1 false) 1) (by decide) (by rfl)

end BufMgrModel

namespace BufMgrModel

/-- C9: `readPage` on an index hit returns the hit frame with its pin count
incremented and reference bit set, touching nothing else — no read or write
event is issued, and the clock hand (so no allocator run), index, pool and
all other descriptors are unchanged.  And fetching the same page twice from a
miss (no intervening eviction) returns the same frame both times, leaving its
pin count at 2. -/
theorem claim9_fetch_hit_spec (s : BufMgr) (f p : Nat) (hInv : Invariant s) :
    (∀ fid, hLookup s.hashTable (f, p) = some fid →
      readPage s f p = .ok (s.setDesc fid
        { s.desc fid with pinCnt := (s.desc fid).pinCnt + 1, refbit := true }, fid) ∧
      (fetchS s f p).readLog = s.readLog ∧
      (fetchS s f p).writeLog = s.writeLog ∧
      (fetchS s f p).clockHand = s.clockHand ∧
      (fetchS s f p).hashTable = s.hashTable ∧
      (fetchS s f p).bufPool = s.bufPool ∧
      ((fetchS s f p).desc fid).pinCnt = (s.desc fid).pinCnt + 1 ∧
      ((fetchS s f p).desc fid).refbit = true ∧
      (∀ j, j ≠ fid → (fetchS s f p).desc j = s.desc j)) ∧
    (hLookup s.hashTable (f, p) = none →
      ∀ u fid, readPage s f p = .ok (u, fid) →
        hLookup u.hashTable (f, p) = some fid ∧
        ∃ u2, readPage u f p = .ok (u2, fid) ∧ (u2.desc fid).pinCnt = 2) := by
  constructor
  · intro fid hl
    have hfr := inv_lookup_frame hInv hl
    have heq := readPage_hit_eq s hfr.2.1 hl
    have hfs : fetchS s f p = s.setDesc fid
        { s.desc fid with pinCnt := (s.desc fid).pinCnt + 1, refbit := true } := by
      rw [fetchS, heq]
    refine ⟨heq, by simp [hfs], by simp [hfs], by simp [hfs], by simp [hfs],
      by simp [hfs], ?_, ?_, ?_⟩
    · rw [hfs, desc_setDesc_self s _ hfr.2.1]
    · rw [hfs, desc_setDesc_self s _ hfr.2.1]
    · intro j hj
      rw [hfs]
      exact desc_setDesc_ne s _ (fun hc => hj hc.symm)
  · intro hl u fid h
    have hpost : AllocPost s (allocBuf s) := allocBufLoop_post (s.numBufs + 1) s hInv
    cases halloc : allocBuf s with
    | error a =>
      obtain ⟨e0, u0⟩ := a
      have heqE : readPage s f p = .error (e0, u0) := by
        simp only [readPage, hl, halloc]
      rw [heqE] at h
      simp at h
    | ok v =>
      obtain ⟨t, fid0⟩ := v
      rw [halloc] at hpost
      obtain ⟨hInvT, hnT, hfidT, hinvalT, hqT⟩ := hpost
      have hflenT : fid0 < t.bufDescTable.length := hInvT.2.1 ▸ hfidT
      have heq := readPage_miss_eq s hl halloc hflenT
      rw [heq] at h
      obtain ⟨hu, hfid⟩ : missResult t f p fid0 = u ∧ fid0 = fid := by simpa using h
      have hlkU : hLookup u.hashTable (f, p) = some fid := by
        rw [← hu, ← hfid, missResult_hashTable]
        exact hLookup_hInsert_self _ _ _
      refine ⟨hlkU, ?_⟩
      have hInvU : Invariant u := by
        rw [← hu]
        exact missResult_inv t hInvT f p fid0 hfidT hinvalT (hqT _ hl)
      have hflenU : fid < u.bufDescTable.length := by
        rw [hInvU.2.1, ← hu, missResult_numBufs, ← hfid]
        exact hfidT
      have hdescU : u.desc fid = BufDesc.Set f p := by
        rw [← hu, ← hfid]
        exact missResult_desc_self t f p fid0 hflenT
      refine ⟨_, readPage_hit_eq u hflenU hlkU, ?_⟩
      rw [desc_setDesc_self u _ hflenU, hdescU]
      rfl

/-- C9 witness: a second fetch of the already-resident page (1,1) leaves its
pin count at 2 and issues no disk read. -/
theorem claim9_witness :
    ((fetchS (fetchS (BufMgr.init 1) 1 1) 1 1).desc 0).pinCnt
        = ((fetchS (BufMgr.init 1) 1 1).desc 0).pinCnt + 1 ∧
    (fetchS (fetchS (BufMgr.init 1) 1 1) 1 1).readLog
        = (fetchS (BufMgr.init 1) 1 1).readLog :=
  have h := (claim9_fetch_hit_spec (fetchS (BufMgr.init 1) 1 1) 1 1 (by decide)).1
    0 (by decide)
  ⟨h.2.2.2.2.2.2.1, h.2.1⟩

end BufMgrModel
